import Mathlib

/-!
Shallow embedding of the wsidicom instance module (src/wsidicom/instance.py):
geometry primitives, offset-table parsing and writing, full and sparse tile
indices, and the tile data engine, together with proofs of the specified
properties.

Python integers are modelled as `Int`, Python floats that are only created,
rounded and compared (focal-plane z values, slice spacings) as `Rat`,
exceptions as `Except WsiError`.
-/

namespace Wsidicom

/-- Error kinds raised by the embedded code, mirroring wsidicom.errors plus
the builtin Python exceptions the source can raise. -/
inductive WsiError where
  | notFound (what : String)
  | outOfBounds (what : String)
  | fileError (msg : String)
  | valueError
  | notImplementedError
  | structError
deriving DecidableEq, Repr

/-! ### Geometry

The geometry module (wsidicom/geometry.py) is not among the given sources;
only its use sites are.  The definitions below are modelled from the spec:
integer 2-D point/size/region types with component-wise arithmetic,
`Region = position + size` with derived start/end/box. -/

/-- Modelled from the spec: integer 2-vector pixel coordinate
(wsidicom.geometry.Point, not under src). -/
structure Point where
  x : Int
  y : Int
deriving DecidableEq, Repr

/-- Modelled from the spec: integer 2-vector pixel size
(wsidicom.geometry.Size, not under src). -/
structure Size where
  width : Int
  height : Int
deriving DecidableEq, Repr

def Size.area (s : Size) : Int := s.width * s.height

def Size.to_tuple (s : Size) : Int × Int := (s.width, s.height)

/-- Ceiling division, `math.ceil(a / b)` for integers with `b > 0`. -/
def cdiv (a b : Int) : Int := -((-a).fdiv b)

instance : Add Point := ⟨fun a b => ⟨a.x + b.x, a.y + b.y⟩⟩

instance : Sub Point := ⟨fun a b => ⟨a.x - b.x, a.y - b.y⟩⟩

instance : HAdd Point Size Point := ⟨fun a s => ⟨a.x + s.width, a.y + s.height⟩⟩

instance : HMul Point Size Point := ⟨fun a s => ⟨a.x * s.width, a.y * s.height⟩⟩

instance : HSub Size Int Size := ⟨fun s i => ⟨s.width - i, s.height - i⟩⟩

/-- Modelled from the spec: floor-division of a point by a size performs
per-axis integer (floor) division. -/
def Point.floordiv (a : Point) (s : Size) : Point :=
  ⟨a.x.fdiv s.width, a.y.fdiv s.height⟩

/-- Modelled from the spec: true division of a point by a size rounds up
per axis.  The tiled size of an image is `image_size / tile_size`, documented
in the source as the number of columns and rows of tiles, which is the
ceiling of the quotient. -/
instance : HDiv Point Size Point :=
  ⟨fun a s => ⟨cdiv a.x s.width, cdiv a.y s.height⟩⟩

/-- Modelled from the spec: `image_size / tile_size` is the number of columns
and rows of tiles, so division of sizes rounds up per axis. -/
instance : HDiv Size Size Size :=
  ⟨fun a s => ⟨cdiv a.width s.width, cdiv a.height s.height⟩⟩

def Point.max (a b : Point) : Point := ⟨Max.max a.x b.x, Max.max a.y b.y⟩

def Point.min (a b : Point) : Point := ⟨Min.min a.x b.x, Min.min a.y b.y⟩

/-- Modelled from the spec: region = position + size with derived
start/end/box (wsidicom.geometry.Region, not under src). -/
structure Region where
  position : Point
  size : Size
deriving DecidableEq, Repr

def Region.start (r : Region) : Point := r.position

/-- Derived end point of a region (`end` in the source; `end` is reserved
in Lean). -/
def Region.stop (r : Region) : Point := r.position + r.size

/-- PIL-style box `(left, upper, right, lower)` of the region. -/
def Region.box (r : Region) : Int × Int × Int × Int :=
  (r.start.x, r.start.y, r.stop.x, r.stop.y)

/-- PIL-style box of the region anchored at the origin. -/
def Region.box_from_origin (r : Region) : Int × Int × Int × Int :=
  (0, 0, r.size.width, r.size.height)

def Region.from_points (p1 p2 : Point) : Region :=
  ⟨p1, ⟨p2.x - p1.x, p2.y - p1.y⟩⟩

/-- Modelled from the spec: a region is inside another when its start is not
before the other start and its end not after the other end, per axis. -/
def Region.is_inside (r other : Region) : Bool :=
  other.start.x ≤ r.start.x ∧ other.start.y ≤ r.start.y ∧
    r.stop.x ≤ other.stop.x ∧ r.stop.y ≤ other.stop.y

/-- List of integers from `lo` (inclusive) to `hi` (exclusive), `range(lo, hi)`. -/
def intRange (lo hi : Int) : List Int :=
  (List.range (hi - lo).toNat).map (fun i => lo + (i : Int))

/-- Modelled from the spec: row-major iteration (x fastest) over the points of
the region, including the end point on each axis when `include_end` is true. -/
def Region.iterate_all (r : Region) (include_end : Bool) : List Point :=
  let o : Int := if include_end then 1 else 0
  (intRange r.start.y (r.stop.y + o)).flatMap
    (fun y => (intRange r.start.x (r.stop.x + o)).map (fun x => ⟨x, y⟩))

/-- Modelled from the spec: the intersection of the region with the tile of
size `tile_size` at tile coordinate `point`, expressed in tile-local
coordinates (the clip rectangle applied to the final row/column of a level). -/
def Region.inside_crop (r : Region) (point : Point) (tile_size : Size) : Region :=
  let tile_start : Point := point * tile_size
  let lo := Point.max r.start tile_start
  let hi := Point.min r.stop (tile_start + tile_size)
  Region.from_points (lo - tile_start) (hi - tile_start)

/-! ### Images and the pluggable codec boundary

Modelled from the spec: the compression codec is an external collaborator with
`encode(image) -> bytes` / `decode(bytes) -> image`; an image is its pixel
raster.  A frame (the encoded form) is modelled as a wrapper holding exactly
the image it decodes to. -/

/-- A PIL image: a size and a pixel raster. -/
structure PILImage where
  size : Size
  pix : Point → Int

/-- PIL `Image.crop(box)`: the sub-image of the given box, whose pixel `(x, y)`
is the source pixel `(x + left, y + upper)`. -/
def PILImage.crop (img : PILImage) (box : Int × Int × Int × Int) : PILImage :=
  ⟨⟨box.2.2.1 - box.1, box.2.2.2 - box.2.1⟩,
    fun p => img.pix ⟨p.x + box.1, p.y + box.2.1⟩⟩

/-- PIL `Image.new(mode, size, color)`: a constant raster. -/
def PILImage.new (size : Size) (color : Int) : PILImage :=
  ⟨size, fun _ => color⟩

/-- Modelled from the spec: an encoded frame, holding the image it decodes to. -/
structure Frame where
  image : PILImage

/-- Modelled from the spec: `encode(image) -> bytes` of the codec boundary. -/
def encodeImage (img : PILImage) : Frame := ⟨img⟩

/-- Modelled from the spec: `decode(bytes) -> image` of the codec boundary
(`Image.open` on a frame byte stream). -/
def decodeFrame (f : Frame) : PILImage := f.image

/-! ### Datasets and rounding -/

/-- Python banker rounding of a rational to the nearest integer
(round-half-to-even, the behaviour of builtin `round`). -/
def pyRoundInt (q : ℚ) : ℤ :=
  let f := Rat.floor q
  let r := q - (f : ℚ)
  if r < 1/2 then f
  else if 1/2 < r then f + 1
  else if f % 2 = 0 then f else f + 1

/-- Python `round(q, 3)`: round to three decimals, half to even.  Float values
are modelled exactly as rationals. -/
def round3 (q : ℚ) : ℚ := (pyRoundInt (q * 1000) : ℚ) / 1000

/-- One entry of the Per Frame Functional Groups Sequence, restricted to the
attributes the index reads: 1-based row/column position in the total pixel
matrix, z offset in the slide coordinate system, and the optional per-frame
optical path identifier. -/
structure FrameEntry where
  row : Int
  col : Int
  z : ℚ
  path : Option String
deriving DecidableEq, Repr

/-- A WsiDataset, restricted to the attributes the tile index and the focal
plane reader consume. -/
structure WsiDataset where
  image_size : Size
  tile_size : Size
  frame_offset : Int
  frame_count : Nat
  optical_path_sequence : List String
  spacing_between_slices : ℚ
  number_of_focal_planes : Nat
  frame_sequence : List FrameEntry
deriving Repr

/-- WsiDataset.read_optical_path_identifier: the per-frame optical path
identifier if present, else the first identifier of the dataset optical path
sequence (the source getattr default is the string 0). -/
def WsiDataset.read_optical_path_identifier (d : WsiDataset) (frame : FrameEntry) : String :=
  match frame.path with
  | some p => p
  | none => d.optical_path_sequence.headD "0"

/-! ### Full tile index -/

/-- FullTileIndex: tiled geometry plus the declared focal plane and optical
path lists (both built from Python sets, hence duplicate-free). -/
structure FullTileIndex where
  image_size : Size
  tile_size : Size
  optical_paths : List String
  focal_planes : List ℚ

/-- TileIndex.tiled_size: `image_size / tile_size` (columns and rows of
tiles). -/
def FullTileIndex.tiled_size (i : FullTileIndex) : Size :=
  i.image_size / i.tile_size

/-- Index of the first element of `l` equal to `a`
(`next(index for index, v in enumerate(l) if v == a)`). -/
def findFirstIdx {α : Type} [DecidableEq α] : List α → α → Option Nat
  | [], _ => none
  | b :: l, a => if b = a then some 0 else (findFirstIdx l a).map (· + 1)

/-- FullTileIndex._get_focal_plane_index: first index of `z` in the focal
plane list, WsiDicomNotFoundError if absent. -/
def FullTileIndex._get_focal_plane_index (i : FullTileIndex) (z : ℚ) :
    Except WsiError Nat :=
  match findFirstIdx i.focal_planes z with
  | some idx => .ok idx
  | none => .error (.notFound "Z in instance")

/-- FullTileIndex._get_optical_path_index: first index of `path` in the
optical path list, WsiDicomNotFoundError if absent. -/
def FullTileIndex._get_optical_path_index (i : FullTileIndex) (path : String) :
    Except WsiError Nat :=
  match findFirstIdx i.optical_paths path with
  | some idx => .ok idx
  | none => .error (.notFound "Optical path")

/-- FullTileIndex.get_frame_index: arithmetic frame index of a tile, z and
optical path. -/
def FullTileIndex.get_frame_index (i : FullTileIndex) (tile : Point) (z : ℚ)
    (path : String) : Except WsiError Int := do
  let plane_offset := tile.x + i.tiled_size.width * tile.y
  let z_offset := (← i._get_focal_plane_index z : Nat) * i.tiled_size.area
  let path_offset :=
    (← i._get_optical_path_index path : Nat) * i.focal_planes.length * i.tiled_size.area
  return plane_offset + z_offset + path_offset

/-- FullTileIndex._read_focal_planes_from_datasets, one dataset step: raise
ValueError when the slice spacing is zero but several focal planes are
declared, else add the rounded plane offsets (in micrometers) of the dataset
to the accumulated set.  The Python set is modelled as a duplicate-free list
extended by insertion of absent values. -/
def addFocalPlanes (acc : List ℚ) (d : WsiDataset) : Except WsiError (List ℚ) :=
  if d.spacing_between_slices = 0 ∧ d.number_of_focal_planes ≠ 1 then
    .error .valueError
  else
    .ok ((List.range d.number_of_focal_planes).foldl
      (fun a (plane : ℕ) =>
        let z := round3 ((plane : ℚ) * d.spacing_between_slices * 1000)
        if z ∈ a then a else a ++ [z])
      acc)

/-- FullTileIndex._read_focal_planes_from_datasets: collect the rounded focal
plane offsets of all datasets into a duplicate-free list, raising ValueError
at the first dataset declaring several focal planes with zero spacing. -/
def _read_focal_planes_from_datasets (datasets : List WsiDataset) :
    Except WsiError (List ℚ) :=
  datasets.foldlM addFocalPlanes []

/-! ### Sparse tile index -/

/-- SparseTilePlane: frame indices for the tiles of one (z, path) plane of a
sparse tiled file.  The numpy grid initialised to -1 is modelled as a total
function on tile coordinates; claims about it are restricted to in-bounds
tiles. -/
structure SparseTilePlane where
  plane : Point → Int

/-- SparseTilePlane of the given tiled size, every entry the sentinel -1. -/
def SparseTilePlane.new : SparseTilePlane := ⟨fun _ => -1⟩

/-- SparseTilePlane.__setitem__. -/
def SparseTilePlane.set (p : SparseTilePlane) (position : Point)
    (frame_index : Int) : SparseTilePlane :=
  ⟨fun q => if q = position then frame_index else p.plane q⟩

/-- SparseTilePlane.__getitem__. -/
def SparseTilePlane.get (p : SparseTilePlane) (position : Point) : Int :=
  p.plane position

/-- The planes dictionary keyed by (z, path), modelled as an association list
in insertion order (a Python dict preserves insertion order). -/
abbrev Planes : Type := List ((ℚ × String) × SparseTilePlane)

/-- Dictionary lookup on the planes map. -/
def planesLookup (ps : Planes) (k : ℚ × String) : Option SparseTilePlane :=
  match ps with
  | [] => none
  | (k2, p) :: rest => if k2 = k then some p else planesLookup rest k

/-- Replace the value of the first entry with the given key. -/
def planesReplace (ps : Planes) (k : ℚ × String) (p : SparseTilePlane) : Planes :=
  match ps with
  | [] => []
  | (k2, p2) :: rest =>
      if k2 = k then (k2, p) :: rest else (k2, p2) :: planesReplace rest k p

/-- One frame step of SparseTileIndex._read_planes_from_datasets: get or
create the plane of key `k`, then store the frame index at the tile
coordinate. -/
def planesAddFrame (ps : Planes) (k : ℚ × String) (tile : Point)
    (frame_index : Int) : Planes :=
  match planesLookup ps k with
  | some p => planesReplace ps k (p.set tile frame_index)
  | none => ps ++ [(k, SparseTilePlane.new.set tile frame_index)]

/-- SparseTileIndex._read_frame_coordinates: 1-based row/column converted to a
tile coordinate by floor division by the tile size, z rounded to three
decimals. -/
def _read_frame_coordinates (tile_size : Size) (frame : FrameEntry) :
    Point × ℚ :=
  let y := frame.row - 1
  let x := frame.col - 1
  let z := round3 frame.z
  (Point.floordiv ⟨x, y⟩ tile_size, z)

/-- The (key, tile, frame index) writes one dataset contributes, in frame
order. -/
def datasetWrites (tile_size : Size) (d : WsiDataset) :
    List ((ℚ × String) × Point × Int) :=
  d.frame_sequence.enum.map (fun e =>
    let tz := _read_frame_coordinates tile_size e.2
    let identifier := d.read_optical_path_identifier e.2
    ((tz.2, identifier), tz.1, (e.1 : Int) + d.frame_offset))

/-- SparseTileIndex._read_planes_from_datasets: insert every frame of every
dataset, in file order then in-file frame order, into the plane keyed by its
(z, path). -/
def _read_planes_from_datasets (tile_size : Size) (datasets : List WsiDataset) :
    Planes :=
  (datasets.flatMap (datasetWrites tile_size)).foldl
    (fun ps w => planesAddFrame ps w.1 w.2.1 w.2.2) []

/-- SparseTileIndex: tiled geometry, declared optical paths, and the planes
built from the per-frame functional group sequences. -/
structure SparseTileIndex where
  image_size : Size
  tile_size : Size
  optical_paths : List String
  planes : Planes

/-- Build a SparseTileIndex from datasets as the constructor does, reading the
geometry from the first dataset and the planes from the frame sequences. -/
def SparseTileIndex.ofDatasets (first : WsiDataset) (datasets : List WsiDataset)
    (optical_paths : List String) : SparseTileIndex :=
  { image_size := first.image_size
    tile_size := first.tile_size
    optical_paths := optical_paths
    planes := _read_planes_from_datasets first.tile_size datasets }

def SparseTileIndex.tiled_size (i : SparseTileIndex) : Size :=
  i.image_size / i.tile_size

/-- SparseTileIndex._get_focal_planes: the distinct z values of the plane
keys. -/
def SparseTileIndex.focal_planes (i : SparseTileIndex) : List ℚ :=
  (i.planes.map (fun kp => kp.1.1)).foldl
    (fun a z => if z ∈ a then a else a ++ [z]) []

/-- SparseTileIndex.get_frame_index: the frame index stored at the tile of the
(z, path) plane, -1 if the tile was never populated,
WsiDicomNotFoundError if there is no such plane. -/
def SparseTileIndex.get_frame_index (i : SparseTileIndex) (tile : Point) (z : ℚ)
    (path : String) : Except WsiError Int :=
  match planesLookup i.planes (z, path) with
  | none => .error (.notFound "Plane with z, path")
  | some plane => .ok (plane.get tile)

/-! ### Files and the tile data engine -/

/-- One physical WsiDicomFile contributing to an instance: its concatenation
frame offset, its frame count, and the frames it stores (locally 0-indexed). -/
structure WsiDicomFileM where
  frame_offset : Int
  frame_count : Nat
  frames : List Frame

/-- WsiDicomFile.read_frame: the frame at the local index
`frame_index - frame_offset`. -/
def WsiDicomFileM.read_frame (f : WsiDicomFileM) (frame_index : Int) :
    Except WsiError Frame :=
  match f.frames.get? (frame_index - f.frame_offset).toNat with
  | some fr => .ok fr
  | none => .error (.fileError "frame position missing")

/-- The tile index of an instance, full or sparse. -/
inductive TileIndexM where
  | full (i : FullTileIndex)
  | sparse (i : SparseTileIndex)

def TileIndexM.tiled_size : TileIndexM → Size
  | .full i => i.tiled_size
  | .sparse i => i.tiled_size

def TileIndexM.image_size : TileIndexM → Size
  | .full i => i.image_size
  | .sparse i => i.image_size

def TileIndexM.tile_size : TileIndexM → Size
  | .full i => i.tile_size
  | .sparse i => i.tile_size

def TileIndexM.focal_planes : TileIndexM → List ℚ
  | .full i => i.focal_planes
  | .sparse i => i.focal_planes

def TileIndexM.optical_paths : TileIndexM → List String
  | .full i => i.optical_paths
  | .sparse i => i.optical_paths

def TileIndexM.get_frame_index (t : TileIndexM) (tile : Point) (z : ℚ)
    (path : String) : Except WsiError Int :=
  match t with
  | .full i => i.get_frame_index tile z path
  | .sparse i => i.get_frame_index tile z path

/-- WsiDicomImageData: the tile data engine over an index and the contributing
files (self._files, a dict keyed by frame offset in insertion order). -/
structure WsiDicomImageData where
  tiles : TileIndexM
  files : List WsiDicomFileM
  photometric_interpretation : String
  samples_per_pixel : Nat

def WsiDicomImageData.image_size (d : WsiDicomImageData) : Size :=
  d.tiles.image_size

def WsiDicomImageData.tile_size (d : WsiDicomImageData) : Size :=
  d.tiles.tile_size

def WsiDicomImageData.tiled_size (d : WsiDicomImageData) : Size :=
  d.tiles.tiled_size

def WsiDicomImageData.focal_planes (d : WsiDicomImageData) : List ℚ :=
  d.tiles.focal_planes

def WsiDicomImageData.optical_paths (d : WsiDicomImageData) : List String :=
  d.tiles.optical_paths

/-- ImageData.image_region. -/
def WsiDicomImageData.image_region (d : WsiDicomImageData) : Region :=
  ⟨⟨0, 0⟩, d.image_size⟩

/-- ImageData.plane_region: positions 0 to tiled_size - 1. -/
def WsiDicomImageData.plane_region (d : WsiDicomImageData) : Region :=
  ⟨⟨0, 0⟩, d.tiled_size - (1 : Int)⟩

/-- ImageData.valid_tiles: the tile region is inside the tiled plane and the z
coordinate and optical path are declared. -/
def WsiDicomImageData.valid_tiles (d : WsiDicomImageData) (region : Region)
    (z : ℚ) (path : String) : Bool :=
  region.is_inside d.plane_region ∧ z ∈ d.focal_planes ∧ path ∈ d.optical_paths

/-- ImageData._get_blank_color: black for MONOCHROME2, else white. -/
def _get_blank_color (photometric_interpretation : String) : Int :=
  if photometric_interpretation = "MONOCHROME2" then 0 else 255

/-- ImageData.blank_tile (cached per instance, derived from the photometric
interpretation). -/
def WsiDicomImageData.blank_tile (d : WsiDicomImageData) : PILImage :=
  PILImage.new d.tile_size (_get_blank_color d.photometric_interpretation)

/-- ImageData.blank_encoded_tile (cached per instance). -/
def WsiDicomImageData.blank_encoded_tile (d : WsiDicomImageData) : Frame :=
  encodeImage d.blank_tile

/-- WsiDicomImageData._get_file: the first file whose frame range contains the
frame index, WsiDicomNotFoundError when no file contains it. -/
def WsiDicomImageData._get_file (d : WsiDicomImageData) (frame_index : Int) :
    Except WsiError WsiDicomFileM :=
  match d.files.find? (fun f =>
      frame_index < f.frame_offset + f.frame_count ∧ f.frame_offset ≤ frame_index) with
  | some f => .ok f
  | none => .error (.notFound "Frame index")

/-- WsiDicomImageData._get_tile_frame: read the frame from the file containing
it. -/
def WsiDicomImageData._get_tile_frame (d : WsiDicomImageData) (frame_index : Int) :
    Except WsiError Frame := do
  let file ← d._get_file frame_index
  file.read_frame frame_index

/-- WsiDicomImageData._get_frame_index: WsiDicomOutOfBoundsError when the
tile, z or path is not valid for the index, else the index frame number. -/
def WsiDicomImageData._get_frame_index (d : WsiDicomImageData) (tile : Point)
    (z : ℚ) (path : String) : Except WsiError Int :=
  let tile_region : Region := ⟨tile, ⟨0, 0⟩⟩
  if ¬ d.valid_tiles tile_region z path then
    .error (.outOfBounds "Tile region")
  else
    d.tiles.get_frame_index tile z path

/-- WsiDicomImageData._get_encoded_tile: the stored frame, or the cached
encoded blank tile when the index reports the sentinel. -/
def WsiDicomImageData._get_encoded_tile (d : WsiDicomImageData) (tile : Point)
    (z : ℚ) (path : String) : Except WsiError Frame := do
  let frame_index ← d._get_frame_index tile z path
  if frame_index = -1 then
    return d.blank_encoded_tile
  else
    d._get_tile_frame frame_index

/-- WsiDicomImageData._get_decoded_tile: the decoded stored frame, or the
cached blank tile when the index reports the sentinel. -/
def WsiDicomImageData._get_decoded_tile (d : WsiDicomImageData) (tile : Point)
    (z : ℚ) (path : String) : Except WsiError PILImage := do
  let frame_index ← d._get_frame_index tile z path
  if frame_index = -1 then
    return d.blank_tile
  else
    return decodeFrame (← d._get_tile_frame frame_index)

/-- The crop argument of get_tile and get_encoded_tile: False (no crop), True
(crop to the image region), or an explicit region. -/
inductive CropArg where
  | noCrop
  | toImage
  | toRegion (r : Region)

/-- ImageData.get_tile: decode the frame located by the index and clip it to
its intersection with the crop region; an intersection equal to the nominal
tile size returns the tile unmodified. -/
def WsiDicomImageData.get_tile (d : WsiDicomImageData) (tile : Point) (z : ℚ)
    (path : String) (crop : CropArg) : Except WsiError PILImage := do
  let image ← d._get_decoded_tile tile z path
  match crop with
  | .noCrop => return image
  | _ =>
    let cropR := match crop with
      | .toRegion r => r
      | _ => d.image_region
    let tile_crop := cropR.inside_crop tile d.tile_size
    if tile_crop.size = d.tile_size then
      return image
    else
      return image.crop tile_crop.box

/-- ImageData.get_encoded_tile: return the frame located by the index; when
the intersection with the crop region differs from the tile size the source
opens the frame, computes the crop but discards its result, and re-encodes
the opened (uncropped) image. -/
def WsiDicomImageData.get_encoded_tile (d : WsiDicomImageData) (tile : Point)
    (z : ℚ) (path : String) (crop : CropArg) : Except WsiError Frame := do
  let tile_frame ← d._get_encoded_tile tile z path
  match crop with
  | .noCrop => return tile_frame
  | _ =>
    let cropR := match crop with
      | .toRegion r => r
      | _ => d.image_region
    let cropped_tile_region := cropR.inside_crop tile d.tile_size
    if cropped_tile_region.size ≠ d.tile_size then
      let image := decodeFrame tile_frame
      let _ := image.crop cropped_tile_region.box_from_origin
      return encodeImage image
    else
      return tile_frame

/-- ImageData.get_tile_range: the inclusive tile range covering a pixel
region, WsiDicomOutOfBoundsError when it is not valid for the index. -/
def WsiDicomImageData.get_tile_range (d : WsiDicomImageData)
    (pixel_region : Region) (z : ℚ) (path : String) : Except WsiError Region :=
  let start := Point.floordiv pixel_region.start d.tile_size
  let stop := pixel_region.stop / d.tile_size - ⟨1, 1⟩
  let tile_region := Region.from_points start stop
  if ¬ d.valid_tiles tile_region z path then
    .error (.outOfBounds "Tile region")
  else
    .ok tile_region

/-- ImageData._write_indexer: advance the write cursor in x by the width of
the previously pasted tile, wrapping to the next row (x reset to 0, y advanced
by the previous height) once x reaches or exceeds the image width. -/
def _write_indexer (index : Point) (previous_size : Size) (image_size : Size) :
    Point :=
  let x := index.x + previous_size.width
  if image_size.width ≤ x then ⟨0, index.y + previous_size.height⟩
  else ⟨x, index.y⟩

/-- ImageData.stitch_tiles, restricted to the paste positions: iterate the
tile range row-major including the end, paste each cropped tile at the write
cursor and advance the cursor by the pasted size. -/
def WsiDicomImageData.stitch_paste_positions (d : WsiDicomImageData)
    (region : Region) (path : String) (z : ℚ) :
    Except WsiError (List Point) := do
  let stitching_tiles ← d.get_tile_range region z path
  let step := fun (acc : Point × List Point) (tile : Point) => do
    let tile_image ← d.get_tile tile z path (.toRegion region)
    let write_index := acc.1
    return (_write_indexer write_index tile_image.size region.size,
      acc.2 ++ [write_index])
  let r ← (stitching_tiles.iterate_all true).foldlM step (⟨⟨0, 0⟩, []⟩ : Point × List Point)
  return r.2

/-! ### Offset table parsing (WsiDicomFile) -/

/-- Little-endian unpack of a byte list into an unsigned integer
(struct.unpack of L or Q). -/
def unpackLE (bs : List Nat) : Nat :=
  bs.foldr (fun b acc => b % 256 + 256 * acc) 0

/-- Big-endian unpack of a byte list. -/
def unpackBE (bs : List Nat) : Nat :=
  bs.foldl (fun acc b => 256 * acc + b % 256) 0

/-- Little-endian pack of an unsigned integer into `width` bytes. -/
def packLE (width : Nat) (v : Nat) : List Nat :=
  match width with
  | 0 => []
  | w + 1 => v % 256 :: packLE w (v / 256)

/-- Split a byte list into consecutive chunks of `width` bytes (the table
slices at indices 0, width, 2 * width, ...). -/
def chunks (width : Nat) : List Nat → List (List Nat)
  | [] => []
  | b :: bs => (b :: bs).take width :: chunks width (bs.drop (width - 1))
termination_by l => l.length
decreasing_by simp [List.length_drop]; omega

/-- The DICOM item tag value (FFFE,E000). -/
def ItemTagVal : Nat := 0xFFFEE000

/-- The DICOM sequence delimiter tag value (FFFE,E00D). -/
def SequenceDelimiterVal : Nat := 0xFFFEE00D

/-- A read-only view of the file past the offset table: the tag and the
4-byte unsigned value found at any byte position, modelling fp.read_tag and
fp.read_UL after a seek. -/
structure FileReadModel where
  tagAt : Int → Nat
  ulAt : Int → Nat

/-- Offset table kind: basic or extended. -/
inductive TableType where
  | bot
  | eot
deriving DecidableEq, Repr

/-- Bytes per table entry: 4 for the basic table, 8 for the extended table. -/
def TableType.bytes_per_item : TableType → Nat
  | .bot => 4
  | .eot => 8

/-- Loop of WsiDicomFile._parse_table over the unpacked offset entries: each
non-final frame gets length next - this - 8 (8 = item tag plus length bytes);
the final frame position is this + 8 with the length read from the item
header at the final entry.  A zero or odd length is a fatal
WsiDicomFileError. -/
def parseTableLoop (fp : FileReadModel) (pixels_start : Int) :
    Int → List Int → List (Int × Int) → Except WsiError (List (Int × Int))
  | this_offset, [], positions =>
    if fp.tagAt (pixels_start + this_offset) ≠ ItemTagVal then
      .error (.fileError "Excepcted ItemTag in PixelData")
    else
      let length : Int := fp.ulAt (pixels_start + this_offset + 4)
      if length = 0 ∨ length % 2 ≠ 0 then
        .error (.fileError "Invalid frame length")
      else
        .ok (positions ++ [(pixels_start + this_offset + 4 + 4, length)])
  | this_offset, next_offset :: rest, positions =>
    let offset := this_offset + 4 + 4
    let length := next_offset - offset
    if length = 0 ∨ length % 2 ≠ 0 then
      .error (.fileError "Invalid frame length")
    else
      parseTableLoop fp pixels_start next_offset rest
        (positions ++ [(pixels_start + offset, length)])

/-- WsiDicomFile._parse_table: unpack the table bytes into 4-byte (bot) or
8-byte (eot) entries (bot honours the file endianness, eot uses the native
little-endian Q format) and read frame positions and lengths from them.  An
empty table (never produced by the callers) is a struct.error. -/
def _parse_table (fp : FileReadModel) (is_little_endian : Bool)
    (table : List Nat) (table_type : TableType) (pixels_start : Int) :
    Except WsiError (List (Int × Int)) :=
  let unpk : List Nat → Nat :=
    match table_type with
    | .bot => if is_little_endian then unpackLE else unpackBE
    | .eot => unpackLE
  match (chunks table_type.bytes_per_item table).map (fun c => (unpk c : Int)) with
  | [] => .error .structError
  | this_offset :: rest => parseTableLoop fp pixels_start this_offset rest []

/-- WsiDicomFile._read_positions_from_pixeldata: scan (tag, length) items from
the current position, recording each frame position and length, until a tag
other than the item tag is read; that tag must be the sequence delimiter.
Reading past the end of the stream is a fatal error.  Zero or odd lengths are
fatal. -/
def _read_positions_from_pixeldata :
    Int → List (Nat × Nat) → List (Int × Int) → Except WsiError (List (Int × Int))
  | _, [], _ => .error (.fileError "end of stream")
  | frame_position, (tag, len) :: rest, positions =>
    if tag = ItemTagVal then
      if len = 0 ∨ len % 2 = 1 then
        .error (.fileError "Invalid frame length")
      else
        _read_positions_from_pixeldata (frame_position + 4 + 4 + len) rest
          (positions ++ [(frame_position + 4 + 4, (len : Int))])
    else if tag = SequenceDelimiterVal then
      .ok positions
    else
      .error (.fileError "No sequence delimeter tag")

/-- WsiDicomFile._read_bot: None when the first pixel data item is empty, its
bytes otherwise; a missing item tag or a length not a multiple of 4 is a
fatal WsiDicomFileError. -/
def _read_bot (item_tag : Nat) (bot_length : Nat) (table : List Nat) :
    Except WsiError (Option (List Nat)) :=
  if item_tag ≠ ItemTagVal then
    .error (.fileError "Basic offset table did not start with an ItemTag")
  else if bot_length = 0 then
    .ok none
  else if bot_length % 4 ≠ 0 then
    .error (.fileError "Basic offset table should be a multiple of 4 bytes")
  else
    .ok (some table)

/-- What WsiDicomFile._parse_pixel_data reads from the file: whether an
extended offset table item precedes the pixel data (with the table bytes
_read_eot returns), the first pixel data item holding the basic offset table,
the position of the first byte after that item, the item stream after it for
the linear scan, and the file view for reading frame headers. -/
structure PixelDataModel where
  eot : Option (List Nat)
  bot_item_tag : Nat
  bot_item_length : Nat
  bot_bytes : List Nat
  pixels_start : Int
  scan_items : List (Nat × Nat)
  fp : FileReadModel
  is_little_endian : Bool
  frame_count : Nat

/-- WsiDicomFile._parse_pixel_data: read an optional extended offset table,
then the basic offset table item; both non-empty is a fatal
WsiDicomFileError; with neither, frame positions are recovered by linear
scan; finally the number of parsed positions must equal the declared frame
count (fragmented frames are unsupported). -/
def _parse_pixel_data (m : PixelDataModel) : Except WsiError (List (Int × Int)) := do
  let table_type := if m.eot.isSome then TableType.eot else TableType.bot
  let bot ← _read_bot m.bot_item_tag m.bot_item_length m.bot_bytes
  let table : Option (List Nat) ←
    match bot with
    | some b =>
      if m.eot.isSome then
        Except.error (.fileError "Both BOT and EOT present")
      else
        pure (some b)
    | none => pure m.eot
  let frame_positions ←
    match table with
    | none => _read_positions_from_pixeldata m.pixels_start m.scan_items []
    | some t => _parse_table m.fp m.is_little_endian t table_type m.pixels_start
  if m.frame_count ≠ frame_positions.length then
    Except.error (.fileError "Fragmented frames are not supported")
  else
    return frame_positions

/-! ### Writer offset table backpatching (WsiDicomFileWriter) -/

/-- write_UL: pack a value as a 4-byte unsigned little-endian integer;
values outside the 32-bit range raise struct.error. -/
def write_UL (value : Int) : Except WsiError (List Nat) :=
  if value < 0 ∨ 2 ^ 32 - 1 < value then .error .structError
  else .ok (packLE 4 value.toNat)

/-- WsiDicomFileWriter._write_unsigned_long_long: pack a value as an 8-byte
unsigned little-endian integer; values outside the 64-bit range raise
struct.error. -/
def _write_unsigned_long_long (value : Int) : Except WsiError (List Nat) :=
  if value < 0 ∨ 2 ^ 64 - 1 < value then .error .structError
  else .ok (packLE 8 value.toNat)

/-- WsiDicomFileWriter._write_bot, restricted to the table values written:
raise NotImplementedError when the last frame position relative to the pixel
data start exceeds 2^32 - 1, else write every relative position as a 32-bit
entry. -/
def _write_bot (pixel_data_start : Int) (frame_positions : List Int) :
    Except WsiError (List (List Nat)) := do
  match frame_positions.getLast? with
  | none => Except.error (.fileError "no frames")
  | some last =>
    if 2 ^ 32 - 1 < last - pixel_data_start then
      Except.error .notImplementedError
    else
      frame_positions.mapM (fun p => write_UL (p - pixel_data_start))

/-- WsiDicomFileWriter._write_eot, restricted to the values written: raise
ValueError when the last relative frame position exceeds 2^64 - 1, else write
every relative position as a 64-bit entry followed by the per-frame lengths,
the last computed from the true end of stream. -/
def _write_eot (pixel_data_start : Int) (frame_positions : List Int)
    (last_frame_end : Int) : Except WsiError (List (List Nat) × List (List Nat)) := do
  match frame_positions with
  | [] => Except.error (.fileError "no frames")
  | first :: _ =>
    let last := frame_positions.getLast?.getD first
    if 2 ^ 64 - 1 < last - pixel_data_start then
      Except.error .valueError
    else do
      let offsets ← frame_positions.mapM
        (fun p => _write_unsigned_long_long (p - pixel_data_start))
      let lengths ← (frame_positions.zip frame_positions.tail).mapM
        (fun se => _write_unsigned_long_long (se.2 - se.1))
      let last_frame_start := last + 4 + 4
      let last_length ← _write_unsigned_long_long (last_frame_end - last_frame_start)
      return (offsets, lengths ++ [last_length])

/-! ### Arithmetic helper lemmas -/

/-- Characterisation of flooring division by its bounds. -/
theorem fdiv_of_bounds {a b q : Int} (hb : 0 < b) (h1 : b * q ≤ a)
    (h2 : a < b * (q + 1)) : a.fdiv b = q := by
  rw [Int.fdiv_eq_ediv _ hb.le]
  have h2' : a < b * q + b := by rw [mul_add, mul_one] at h2; exact h2
  exact ((@Int.ediv_emod_unique a b (a - b * q) q hb).mpr
    ⟨by ring, by linarith, by linarith⟩).1

/-- The inclusive upper tile computed as the ceiling quotient minus one is the
floor quotient of the predecessor. -/
theorem cdiv_sub_one {a b : Int} (hb : 0 < b) : cdiv a b - 1 = (a - 1).fdiv b := by
  have hd : (-a).fdiv b = -a / b := Int.fdiv_eq_ediv _ hb.le
  have hr0 : 0 ≤ -a % b := Int.emod_nonneg _ (ne_of_gt hb)
  have hrb : -a % b < b := Int.emod_lt_of_pos _ hb
  have hme : -a % b + b * (-a / b) = -a := Int.emod_add_ediv _ _
  have hq : (a - 1).fdiv b = -(-a / b) - 1 := by
    apply fdiv_of_bounds hb
    · have : b * (-(-a / b) - 1) = -(b * (-a / b)) - b := by ring
      rw [this]; linarith
    · have : b * (-(-a / b) - 1 + 1) = -(b * (-a / b)) := by ring
      rw [this]; linarith
  rw [hq]
  unfold cdiv
  rw [hd]

/-- Componentwise form of the tile range end: the ceiling quotient of the
region end minus one equals the floor quotient of the region end minus one. -/
theorem truediv_sub_one (p : Point) (s : Size) (hw : 0 < s.width)
    (hh : 0 < s.height) :
    p / s - (⟨1, 1⟩ : Point) = Point.floordiv (p - ⟨1, 1⟩) s :=
  congrArg₂ Point.mk (cdiv_sub_one hw) (cdiv_sub_one hh)

/-- The tile range in the words of the spec: from the region start
floor-divided by the tile size to the region end minus one floor-divided by
the tile size, inclusive. -/
def tileRangeSpec (pr : Region) (ts : Size) : Region :=
  Region.from_points (Point.floordiv pr.start ts)
    (Point.floordiv (pr.stop - ⟨1, 1⟩) ts)

/-- C5: get_tile_range returns the inclusive tile range whose start is the
region start floor-divided by the tile size and whose end is the region end
minus one floor-divided by the tile size; a region fully inside one tile
yields a single-tile range, a region straddling exactly two tiles yields a
two-tile range, a zero-area region yields the range anchored at the tile
containing its origin; an invalid range raises out-of-bounds instead of
returning. -/
theorem get_tile_range_spec (d : WsiDicomImageData) (z : ℚ) (path : String)
    (htw : 0 < d.tile_size.width) (hth : 0 < d.tile_size.height) :
    (∀ pr : Region,
      d.get_tile_range pr z path =
        if ¬ d.valid_tiles (tileRangeSpec pr d.tile_size) z path then
          Except.error (.outOfBounds "Tile region")
        else Except.ok (tileRangeSpec pr d.tile_size)) ∧
    (∀ (pr : Region) (k : Point) (r : Region),
      d.get_tile_range pr z path = Except.ok r →
      k.x * d.tile_size.width ≤ pr.start.x →
      pr.stop.x ≤ (k.x + 1) * d.tile_size.width →
      k.y * d.tile_size.height ≤ pr.start.y →
      pr.stop.y ≤ (k.y + 1) * d.tile_size.height →
      pr.start.x < pr.stop.x → pr.start.y < pr.stop.y →
      r = ⟨k, ⟨0, 0⟩⟩) ∧
    (∀ (pr : Region) (k : Point) (r : Region),
      d.get_tile_range pr z path = Except.ok r →
      k.x * d.tile_size.width ≤ pr.start.x →
      pr.start.x < (k.x + 1) * d.tile_size.width →
      (k.x + 1) * d.tile_size.width ≤ pr.stop.x - 1 →
      pr.stop.x - 1 < (k.x + 2) * d.tile_size.width →
      k.y * d.tile_size.height ≤ pr.start.y →
      pr.stop.y ≤ (k.y + 1) * d.tile_size.height →
      pr.start.y < pr.stop.y →
      r = ⟨k, ⟨1, 0⟩⟩) ∧
    (∀ (pr : Region) (r : Region),
      d.get_tile_range pr z path = Except.ok r →
      pr.size = ⟨0, 0⟩ →
      r.position = Point.floordiv pr.start d.tile_size) := by
  have hmain : ∀ pr : Region,
      d.get_tile_range pr z path =
        if ¬ d.valid_tiles (tileRangeSpec pr d.tile_size) z path then
          Except.error (.outOfBounds "Tile region")
        else Except.ok (tileRangeSpec pr d.tile_size) := by
    intro pr
    have key : Region.from_points (Point.floordiv pr.start d.tile_size)
        (pr.stop / d.tile_size - (⟨1, 1⟩ : Point)) = tileRangeSpec pr d.tile_size := by
      rw [truediv_sub_one pr.stop d.tile_size htw hth]; rfl
    simp only [WsiDicomImageData.get_tile_range]
    rw [key]
  have hok : ∀ (pr : Region) (r : Region),
      d.get_tile_range pr z path = Except.ok r → r = tileRangeSpec pr d.tile_size := by
    intro pr r h
    rw [hmain pr] at h
    by_cases hv : d.valid_tiles (tileRangeSpec pr d.tile_size) z path
    · simp [hv] at h; exact h.symm
    · simp [hv] at h
  refine ⟨hmain, ?_, ?_, ?_⟩
  · intro pr k r h h1 h2 h3 h4 h5 h6
    rw [hok pr r h]
    have hx1 : (pr.start.x).fdiv d.tile_size.width = k.x := by
      apply fdiv_of_bounds htw (by linarith [mul_comm k.x d.tile_size.width])
      have : d.tile_size.width * (k.x + 1) = (k.x + 1) * d.tile_size.width := by ring
      rw [this]; omega
    have hx2 : (pr.stop.x - 1).fdiv d.tile_size.width = k.x := by
      apply fdiv_of_bounds htw (by linarith [mul_comm k.x d.tile_size.width])
      have : d.tile_size.width * (k.x + 1) = (k.x + 1) * d.tile_size.width := by ring
      rw [this]; omega
    have hy1 : (pr.start.y).fdiv d.tile_size.height = k.y := by
      apply fdiv_of_bounds hth (by linarith [mul_comm k.y d.tile_size.height])
      have : d.tile_size.height * (k.y + 1) = (k.y + 1) * d.tile_size.height := by ring
      rw [this]; omega
    have hy2 : (pr.stop.y - 1).fdiv d.tile_size.height = k.y := by
      apply fdiv_of_bounds hth (by linarith [mul_comm k.y d.tile_size.height])
      have : d.tile_size.height * (k.y + 1) = (k.y + 1) * d.tile_size.height := by ring
      rw [this]; omega
    have hshape : tileRangeSpec pr d.tile_size =
        Region.mk ⟨pr.start.x.fdiv d.tile_size.width, pr.start.y.fdiv d.tile_size.height⟩
          ⟨(pr.stop.x - 1).fdiv d.tile_size.width - pr.start.x.fdiv d.tile_size.width,
            (pr.stop.y - 1).fdiv d.tile_size.height - pr.start.y.fdiv d.tile_size.height⟩ := rfl
    rw [hshape, hx1, hx2, hy1, hy2]
    simp
  · intro pr k r h h1 h2 h3 h4 h5 h6 h7
    rw [hok pr r h]
    have hx1 : (pr.start.x).fdiv d.tile_size.width = k.x := by
      apply fdiv_of_bounds htw (by linarith [mul_comm k.x d.tile_size.width])
      have : d.tile_size.width * (k.x + 1) = (k.x + 1) * d.tile_size.width := by ring
      rw [this]; omega
    have hx2 : (pr.stop.x - 1).fdiv d.tile_size.width = k.x + 1 := by
      apply fdiv_of_bounds htw
      · have : d.tile_size.width * (k.x + 1) = (k.x + 1) * d.tile_size.width := by ring
        rw [this]; omega
      · have : d.tile_size.width * (k.x + 1 + 1) = (k.x + 2) * d.tile_size.width := by ring
        rw [this]; omega
    have hy1 : (pr.start.y).fdiv d.tile_size.height = k.y := by
      apply fdiv_of_bounds hth (by linarith [mul_comm k.y d.tile_size.height])
      have : d.tile_size.height * (k.y + 1) = (k.y + 1) * d.tile_size.height := by ring
      rw [this]; omega
    have hy2 : (pr.stop.y - 1).fdiv d.tile_size.height = k.y := by
      apply fdiv_of_bounds hth (by linarith [mul_comm k.y d.tile_size.height])
      have : d.tile_size.height * (k.y + 1) = (k.y + 1) * d.tile_size.height := by ring
      rw [this]; omega
    have hshape : tileRangeSpec pr d.tile_size =
        Region.mk ⟨pr.start.x.fdiv d.tile_size.width, pr.start.y.fdiv d.tile_size.height⟩
          ⟨(pr.stop.x - 1).fdiv d.tile_size.width - pr.start.x.fdiv d.tile_size.width,
            (pr.stop.y - 1).fdiv d.tile_size.height - pr.start.y.fdiv d.tile_size.height⟩ := rfl
    rw [hshape, hx1, hx2, hy1, hy2]
    simp
  · intro pr r h hsz
    rw [hok pr r h]
    rfl

/-- A concrete full-tiled example instance: a 2048 x 2048 image of
1024 x 1024 tiles, one focal plane, one optical path, four frames in one
file. -/
def exFullIndex : FullTileIndex :=
  { image_size := ⟨2048, 2048⟩
    tile_size := ⟨1024, 1024⟩
    optical_paths := ["0"]
    focal_planes := [0] }

def exFrame : Frame := encodeImage (PILImage.new ⟨1024, 1024⟩ 30)

def exImageData : WsiDicomImageData :=
  { tiles := .full exFullIndex
    files := [⟨0, 4, [exFrame, exFrame, exFrame, exFrame]⟩]
    photometric_interpretation := "MONOCHROME2"
    samples_per_pixel := 1 }

/-- Witness for the tile range theorem at the example instance. -/
theorem get_tile_range_spec_witness :
    exImageData.get_tile_range ⟨⟨0, 0⟩, ⟨2048, 2048⟩⟩ 0 "0" =
      Except.ok ⟨⟨0, 0⟩, ⟨1, 1⟩⟩ := by
  rw [(get_tile_range_spec exImageData 0 "0" (by decide) (by decide)).1]
  rfl

/-- C7: during stitch_tiles the write cursor starts at the origin, advances in
x by the pasted tile width and wraps (x reset to zero, y advanced by the
pasted tile height) once x would reach or exceed the region width; stitching
a 2048 x 2048 region from 1024 x 1024 tiles pastes at (0,0), (1024,0),
(0,1024), (1024,1024). -/
theorem stitch_write_cursor :
    (∀ (index : Point) (previous_size image_size : Size),
      _write_indexer index previous_size image_size =
        if image_size.width ≤ index.x + previous_size.width then
          ⟨0, index.y + previous_size.height⟩
        else ⟨index.x + previous_size.width, index.y⟩) ∧
    exImageData.stitch_paste_positions ⟨⟨0, 0⟩, ⟨2048, 2048⟩⟩ "0" 0 =
      Except.ok [⟨0, 0⟩, ⟨1024, 0⟩, ⟨0, 1024⟩, ⟨1024, 1024⟩] := by
  constructor
  · intro index previous_size image_size
    rfl
  · rfl

/-- mapM in the Except monad succeeds when every element maps successfully. -/
theorem mapM_total {α β : Type} (f : α → Except WsiError β) (l : List α)
    (h : ∀ a ∈ l, ∃ b, f a = .ok b) : ∃ r, l.mapM f = Except.ok r := by
  induction l with
  | nil => exact ⟨[], rfl⟩
  | cons a t ih =>
    obtain ⟨b, hb⟩ := h a (List.mem_cons_self a t)
    obtain ⟨r, hr⟩ := ih (fun x hx => h x (List.mem_cons_of_mem a hx))
    refine ⟨b :: r, ?_⟩
    rw [List.mapM_cons, hb, hr]
    rfl

/-- Adjacent pairs of a chain are ordered. -/
theorem chain_zip_tail {l : List Int} (h : l.Chain' (· ≤ ·)) :
    ∀ p ∈ l.zip l.tail, p.1 ≤ p.2 := by
  induction l with
  | nil => simp
  | cons a t ih =>
    cases t with
    | nil => simp
    | cons b m =>
      intro p hp
      rw [List.chain'_cons] at h
      simp only [List.tail_cons, List.zip_cons_cons, List.mem_cons] at hp
      rcases hp with hp | hp
      · rw [hp]; exact h.1
      · exact ih h.2 p hp

/-- The value of getLast? is a member of the list. -/
theorem getLast?_mem {l : List Int} {a : Int} (h : l.getLast? = some a) :
    a ∈ l := by
  induction l with
  | nil => simp at h
  | cons x t ih =>
    cases t with
    | nil => simp at h; simp [h]
    | cons y m =>
      rw [List.getLast?_cons_cons] at h
      exact List.mem_cons_of_mem x (ih h)

/-- C8: with frame positions written in increasing order, backpatching the
basic offset table fails exactly when some frame position relative to the
pixel data start exceeds 2^32 - 1, while the extended offset table succeeds
on the same positions whenever they fit in 64 bits. -/
theorem offset_table_size_limit (pixel_data_start last last_frame_end : Int)
    (frame_positions : List Int)
    (hlast : frame_positions.getLast? = some last)
    (hmono : frame_positions.Chain' (· ≤ ·))
    (hlb : ∀ p ∈ frame_positions, pixel_data_start ≤ p)
    (hub : ∀ p ∈ frame_positions, p ≤ last) :
    ((∃ p ∈ frame_positions, 2 ^ 32 - 1 < p - pixel_data_start) →
      _write_bot pixel_data_start frame_positions =
        Except.error .notImplementedError) ∧
    ((∀ p ∈ frame_positions, p - pixel_data_start ≤ 2 ^ 32 - 1) →
      ∃ bs, _write_bot pixel_data_start frame_positions = Except.ok bs) ∧
    ((∀ p ∈ frame_positions, p - pixel_data_start ≤ 2 ^ 64 - 1) →
      last + 8 ≤ last_frame_end →
      last_frame_end - (last + 8) ≤ 2 ^ 64 - 1 →
      ∃ r, _write_eot pixel_data_start frame_positions last_frame_end =
        Except.ok r) := by
  refine ⟨?_, ?_, ?_⟩
  · rintro ⟨p, hp, hgt⟩
    have hple : p ≤ last := hub p hp
    simp only [_write_bot, hlast]
    rw [if_pos (by omega)]
  · intro h32
    have hlastmem : last ∈ frame_positions := getLast?_mem hlast
    simp only [_write_bot, hlast]
    rw [if_neg (by have := h32 last hlastmem; omega)]
    exact mapM_total _ _ (fun p hp => by
      refine ⟨packLE 4 (p - pixel_data_start).toNat, ?_⟩
      unfold write_UL
      rw [if_neg (by have := hlb p hp; have := h32 p hp; omega)])
  · intro h64 hend hendfit
    cases frame_positions with
    | nil => simp at hlast
    | cons first rest =>
      have hlast2 : (first :: rest).getLast?.getD first = last := by
        rw [hlast]; rfl
      have hlastmem : last ∈ first :: rest := getLast?_mem hlast
      simp only [_write_eot, hlast2]
      rw [if_neg (by have := h64 last hlastmem; omega)]
      obtain ⟨offs, hoffs⟩ := mapM_total
        (fun p => _write_unsigned_long_long (p - pixel_data_start))
        (first :: rest) (fun p hp => by
          refine ⟨packLE 8 (p - pixel_data_start).toNat, ?_⟩
          simp only [_write_unsigned_long_long]
          rw [if_neg (by have := hlb p hp; have := h64 p hp; omega)])
      obtain ⟨lens, hlens⟩ := mapM_total
        (fun se : Int × Int => _write_unsigned_long_long (se.2 - se.1))
        ((first :: rest).zip (first :: rest).tail) (fun se hse => by
          refine ⟨packLE 8 (se.2 - se.1).toNat, ?_⟩
          have hadj := chain_zip_tail hmono se hse
          have h1 : se.1 ∈ first :: rest := (List.of_mem_zip hse).1
          have h2 : se.2 ∈ (first :: rest).tail := (List.of_mem_zip hse).2
          have h2' : se.2 ∈ first :: rest := List.mem_of_mem_tail h2
          simp only [_write_unsigned_long_long]
          rw [if_neg (by
            have := hlb se.1 h1
            have := hub se.2 h2'
            have := h64 last hlastmem
            omega)])
      rw [hoffs, hlens]
      refine ⟨(offs, lens ++ [packLE 8 (last_frame_end - (last + 4 + 4)).toNat]), ?_⟩
      simp only [_write_unsigned_long_long]
      rw [if_neg (by omega)]
      rfl

/-- Witness for the offset table limit theorem: a frame stream larger than
2^32 - 1 bytes fails with the basic table and succeeds with the extended
table. -/
theorem offset_table_size_limit_witness :
    _write_bot 0 [10, 2 ^ 32 + 10] = Except.error .notImplementedError ∧
    (∃ r, _write_eot 0 [10, 2 ^ 32 + 10] (2 ^ 32 + 100) = Except.ok r) := by
  have h := offset_table_size_limit 0 (2 ^ 32 + 10) (2 ^ 32 + 100) [10, 2 ^ 32 + 10]
    (by decide) (by norm_num [List.chain'_cons]) (by decide) (by decide)
  exact ⟨h.1 ⟨2 ^ 32 + 10, by decide, by decide⟩,
    h.2.2 (by decide) (by decide) (by decide)⟩

/-- The first element satisfying a predicate that no other element satisfies
is found. -/
theorem find_unique {α : Type} (p : α → Bool) (l : List α) (f : α)
    (hf : f ∈ l) (hpf : p f = true)
    (huniq : ∀ g ∈ l, g ≠ f → p g = false) :
    l.find? p = some f := by
  induction l with
  | nil => cases hf
  | cons a t ih =>
    by_cases hap : p a = true
    · have haf : a = f := by
        by_contra hne
        rw [huniq a (List.mem_cons_self a t) hne] at hap
        cases hap
      rw [List.find?_cons_of_pos _ hap, haf]
    · rw [List.find?_cons_of_neg _ (by simp [hap])]
      have hft : f ∈ t := by
        rcases List.mem_cons.mp hf with h | h
        · rw [h] at hpf; exact absurd hpf hap
        · exact h
      exact ih hft (fun g hg hne => huniq g (List.mem_cons_of_mem a hg) hne)

/-- C9: the instance file lookup returns the unique contributing file whose
frame range contains the frame index, and raises not-found when no
contributing file contains it, so a tile read resolving to an absent frame
number fails with not-found. -/
theorem get_file_unique (d : WsiDicomImageData) (i : Int) :
    ((∀ f ∈ d.files,
        ¬ (f.frame_offset ≤ i ∧ i < f.frame_offset + f.frame_count)) →
      d._get_file i = Except.error (.notFound "Frame index") ∧
      d._get_tile_frame i = Except.error (.notFound "Frame index")) ∧
    (∀ f ∈ d.files,
      f.frame_offset ≤ i ∧ i < f.frame_offset + f.frame_count →
      (∀ g ∈ d.files, g ≠ f →
        ¬ (g.frame_offset ≤ i ∧ i < g.frame_offset + g.frame_count)) →
      d._get_file i = Except.ok f) := by
  constructor
  · intro hnone
    have hfind : d.files.find?
        (fun f => i < f.frame_offset + f.frame_count ∧ f.frame_offset ≤ i) = none := by
      rw [List.find?_eq_none]
      intro f hf
      simp only [decide_eq_true_eq]
      have := hnone f hf
      tauto
    constructor
    · simp only [WsiDicomImageData._get_file, hfind]
    · simp only [WsiDicomImageData._get_tile_frame, WsiDicomImageData._get_file, hfind]
      rfl
  · intro f hf hcont huniq
    have hfind : d.files.find?
        (fun f => i < f.frame_offset + f.frame_count ∧ f.frame_offset ≤ i) = some f := by
      apply find_unique _ _ f hf
      · simp only [decide_eq_true_eq]; tauto
      · intro g hg hne
        have := huniq g hg hne
        simp only [decide_eq_false_iff_not, decide_eq_true_eq]
        tauto
    simp only [WsiDicomImageData._get_file, hfind]

/-- Witness for the file lookup theorem: the example instance has no file
containing frame index 4, and its single file contains frame index 2. -/
theorem get_file_unique_witness :
    exImageData._get_file 4 = Except.error (.notFound "Frame index") ∧
    exImageData._get_file 2 = Except.ok ⟨0, 4, [exFrame, exFrame, exFrame, exFrame]⟩ := by
  constructor
  · exact ((get_file_unique exImageData 4).1 (by
      intro f hf
      simp only [exImageData, List.mem_singleton] at hf
      rw [hf]
      simp only [not_and]
      intro h
      norm_num)).1
  · exact (get_file_unique exImageData 2).2
      ⟨0, 4, [exFrame, exFrame, exFrame, exFrame]⟩
      (by simp [exImageData])
      (by norm_num)
      (by
        intro g hg hne
        simp only [exImageData, List.mem_singleton] at hg
        exact absurd hg hne)

/-! ### Parse table theorems -/

theorem packLE_length (w v : Nat) : (packLE w v).length = w := by
  induction w generalizing v with
  | zero => rfl
  | succ w ih => simp [packLE, ih]

theorem unpackLE_packLE (w v : Nat) (h : v < 256 ^ w) :
    unpackLE (packLE w v) = v := by
  induction w generalizing v with
  | zero => simp [packLE, unpackLE]; omega
  | succ w ih =>
    have hlt : v / 256 < 256 ^ w := by
      rw [Nat.div_lt_iff_lt_mul (by norm_num)]
      calc v < 256 ^ (w + 1) := h
        _ = 256 ^ w * 256 := by ring
    simp only [packLE, unpackLE, List.foldr_cons]
    have : unpackLE (packLE w (v / 256)) = v / 256 := ih _ hlt
    rw [show (packLE w (v / 256)).foldr (fun b acc => b % 256 + 256 * acc) 0
      = unpackLE (packLE w (v / 256)) from rfl, this]
    omega

/-- Chunking the concatenation of equal-width blocks recovers the blocks. -/
theorem chunks_join (w : Nat) (hw : 0 < w) (blocks : List (List Nat))
    (hlen : ∀ b ∈ blocks, b.length = w) :
    chunks w blocks.flatten = blocks := by
  induction blocks with
  | nil => simp [chunks]
  | cons b bs ih =>
    have hb : b.length = w := hlen b (List.mem_cons_self b bs)
    obtain ⟨x, xs, rfl⟩ : ∃ x xs, b = x :: xs := by
      cases b with
      | nil => simp at hb; omega
      | cons x xs => exact ⟨x, xs, rfl⟩
    have hxs : xs.length = w - 1 := by simp at hb; omega
    rw [List.flatten_cons]
    show chunks w (x :: (xs ++ bs.flatten)) = _
    rw [chunks]
    congr 1
    · show (x :: (xs ++ bs.flatten)).take w = x :: xs
      rw [show (x :: (xs ++ bs.flatten)) = (x :: xs) ++ bs.flatten from rfl,
        List.take_left' hb]
    · rw [List.drop_left' hxs]
      exact ih (fun c hc => hlen c (List.mem_cons_of_mem _ hc))

/-- The frame positions the spec assigns from an entry list: each non-final
entry yields position entry + 8 and length next - entry - 8; the final entry
yields position entry + 8 with the length read from the item header at the
entry. -/
def tableSpecList (fp : FileReadModel) (ps : Int) :
    Int → List Int → List (Int × Int)
  | this, [] => [(ps + this + 8, (fp.ulAt (ps + this + 4) : Int))]
  | this, nxt :: rest => (ps + this + 8, nxt - this - 8) :: tableSpecList fp ps nxt rest

/-- All computed lengths are nonzero and even, the item tag is present at the
final entry, and the read final length is nonzero and even. -/
def tableGood (fp : FileReadModel) (ps : Int) : Int → List Int → Prop
  | this, [] =>
    fp.tagAt (ps + this) = ItemTagVal ∧
      ((fp.ulAt (ps + this + 4) : Int) ≠ 0 ∧ (fp.ulAt (ps + this + 4) : Int) % 2 = 0)
  | this, nxt :: rest =>
    (nxt - this - 8 ≠ 0 ∧ (nxt - this - 8) % 2 = 0) ∧ tableGood fp ps nxt rest

theorem parseTableLoop_ok (fp : FileReadModel) (ps : Int) :
    ∀ (es : List Int) (this : Int) (acc : List (Int × Int)),
      tableGood fp ps this es →
      parseTableLoop fp ps this es acc = Except.ok (acc ++ tableSpecList fp ps this es) := by
  intro es
  induction es with
  | nil =>
    intro this acc h
    obtain ⟨htag, hlen⟩ := h
    simp only [parseTableLoop, tableSpecList]
    rw [if_neg (by simp [htag]), if_neg (by omega)]
    have e1 : ps + this + 4 + 4 = ps + this + 8 := by ring
    rw [e1]
  | cons nxt rest ih =>
    intro this acc h
    obtain ⟨hgood, htail⟩ := h
    simp only [parseTableLoop, tableSpecList]
    rw [if_neg (by omega)]
    rw [ih nxt (acc ++ [(ps + (this + 4 + 4), nxt - (this + 4 + 4))]) htail]
    simp only [List.append_assoc, List.cons_append, List.nil_append]
    have e1 : ps + (this + 4 + 4) = ps + this + 8 := by ring
    have e2 : nxt - (this + 4 + 4) = nxt - this - 8 := by ring
    rw [e1, e2]

theorem parseTableLoop_isOk (fp : FileReadModel) (ps : Int) :
    ∀ (es : List Int) (this : Int) (acc : List (Int × Int)) (l : List (Int × Int)),
      parseTableLoop fp ps this es acc = Except.ok l →
      tableGood fp ps this es := by
  intro es
  induction es with
  | nil =>
    intro this acc l h
    simp only [parseTableLoop] at h
    by_cases htag : fp.tagAt (ps + this) ≠ ItemTagVal
    · rw [if_pos (by simp [htag])] at h; cases h
    · rw [if_neg (by simpa using htag)] at h
      push_neg at htag
      by_cases hlen : (fp.ulAt (ps + this + 4) : Int) = 0 ∨
          (fp.ulAt (ps + this + 4) : Int) % 2 ≠ 0
      · rw [if_pos hlen] at h; cases h
      · push_neg at hlen
        exact ⟨htag, hlen⟩
  | cons nxt rest ih =>
    intro this acc l h
    simp only [parseTableLoop] at h
    by_cases hgood : nxt - (this + 4 + 4) = 0 ∨ (nxt - (this + 4 + 4)) % 2 ≠ 0
    · rw [if_pos hgood] at h; cases h
    · rw [if_neg hgood] at h
      push_neg at hgood
      refine ⟨?_, ih nxt _ l h⟩
      constructor
      · omega
      · omega

theorem tableSpecList_length (fp : FileReadModel) (ps : Int) :
    ∀ (es : List Int) (this : Int),
      (tableSpecList fp ps this es).length = es.length + 1 := by
  intro es
  induction es with
  | nil => intro this; rfl
  | cons nxt rest ih => intro this; simp [tableSpecList, ih]

theorem tableSpecList_get (fp : FileReadModel) (ps : Int) :
    ∀ (es : List Int) (this : Int) (i : Nat), i + 1 ≤ es.length →
      (tableSpecList fp ps this es).getD i (0, 0) =
        (ps + (this :: es).getD i 0 + 8,
          (this :: es).getD (i + 1) 0 - (this :: es).getD i 0 - 8) := by
  intro es
  induction es with
  | nil => intro this i h; simp at h
  | cons nxt rest ih =>
    intro this i h
    cases i with
    | zero => rfl
    | succ j =>
      have hj : j + 1 ≤ rest.length := by simpa using h
      simpa [tableSpecList] using ih nxt j hj

theorem tableSpecList_last (fp : FileReadModel) (ps : Int) :
    ∀ (es : List Int) (this : Int),
      (tableSpecList fp ps this es).getD es.length (0, 0) =
        (ps + (this :: es).getD es.length 0 + 8,
          (fp.ulAt (ps + (this :: es).getD es.length 0 + 4) : Int)) := by
  intro es
  induction es with
  | nil => intro this; rfl
  | cons nxt rest ih =>
    intro this
    simpa [tableSpecList] using ih nxt

theorem castGetD (l : List Nat) (i : Nat) :
    (l.map (fun v : Nat => (v : Int))).getD i 0 = ((l.getD i 0 : Nat) : Int) := by
  induction l generalizing i with
  | nil => simp
  | cons a t ih =>
    cases i with
    | zero => rfl
    | succ j => simpa using ih j

/-- C3: for an offset table (basic or extended) with n entries, the parser
assigns frame i (i < n - 1) the position entry i plus the 8-byte item header
and the length entry (i+1) minus entry i minus 8, and the last frame the
length read from the item header at the last entry; a computed or read length
that is zero or odd aborts with a fatal error. -/
theorem parse_table_spec (fp : FileReadModel) (tt : TableType) (ps : Int)
    (e0 : Nat) (es : List Nat)
    (hbound : ∀ e ∈ e0 :: es, e < 256 ^ tt.bytes_per_item) :
    (∀ l, _parse_table fp true
        (((e0 :: es).map (packLE tt.bytes_per_item)).flatten)
        tt ps = Except.ok l →
      l.length = es.length + 1 ∧
      (∀ i, i + 1 ≤ es.length →
        l.getD i (0, 0) =
          (ps + ((e0 :: es).getD i 0 : Int) + 8,
            ((e0 :: es).getD (i + 1) 0 : Int) - ((e0 :: es).getD i 0 : Int) - 8)) ∧
      l.getD es.length (0, 0) =
        (ps + ((e0 :: es).getD es.length 0 : Int) + 8,
          (fp.ulAt (ps + ((e0 :: es).getD es.length 0 : Int) + 4) : Int))) ∧
    ((∃ l, _parse_table fp true
        (((e0 :: es).map (packLE tt.bytes_per_item)).flatten)
        tt ps = Except.ok l) ↔
      tableGood fp ps (e0 : Int) (es.map (fun v : Nat => (v : Int)))) := by
  have hw : 0 < tt.bytes_per_item := by
    cases tt <;> norm_num [TableType.bytes_per_item]
  have hred : _parse_table fp true
      (((e0 :: es).map (packLE tt.bytes_per_item)).flatten)
      tt ps = parseTableLoop fp ps (e0 : Int) (es.map (fun v : Nat => (v : Int))) [] := by
    have hchunks : chunks tt.bytes_per_item
        (((e0 :: es).map (packLE tt.bytes_per_item)).flatten) =
        (e0 :: es).map (packLE tt.bytes_per_item) := by
      apply chunks_join _ hw
      intro b hb
      obtain ⟨v, _, rfl⟩ := List.mem_map.mp hb
      exact packLE_length _ v
    have hmap : ((e0 :: es).map (packLE tt.bytes_per_item)).map
          (fun c => ((unpackLE c : Nat) : Int)) =
          (e0 : Int) :: es.map (fun v : Nat => (v : Int)) := by
      rw [List.map_map]
      have : ∀ v ∈ e0 :: es,
          ((fun c => ((unpackLE c : Nat) : Int)) ∘ packLE tt.bytes_per_item) v
            = (v : Int) := by
        intro v hv
        simp only [Function.comp]
        rw [unpackLE_packLE _ _ (hbound v hv)]
      rw [List.map_congr_left this]
      rfl
    cases tt with
    | bot =>
      simp only [_parse_table, if_true]
      rw [hchunks, hmap]
    | eot =>
      simp only [_parse_table]
      rw [hchunks, hmap]
  constructor
  · intro l hok
    rw [hred] at hok
    have hgood := parseTableLoop_isOk fp ps _ _ _ _ hok
    have hval := parseTableLoop_ok fp ps _ _ [] hgood
    rw [hok] at hval
    have hl : l = tableSpecList fp ps (e0 : Int) (es.map (fun v : Nat => (v : Int))) := by
      simpa using hval
    refine ⟨?_, ?_, ?_⟩
    · rw [hl, tableSpecList_length]; simp
    · intro i hi
      rw [hl]
      have := tableSpecList_get fp ps (es.map (fun v : Nat => (v : Int))) (e0 : Int) i
        (by simpa using hi)
      rw [this]
      have hcons : ((e0 : Int) :: es.map (fun v : Nat => (v : Int))) =
          (e0 :: es).map (fun v : Nat => (v : Int)) := rfl
      rw [hcons, castGetD, castGetD]
    · rw [hl]
      have := tableSpecList_last fp ps (es.map (fun v : Nat => (v : Int))) (e0 : Int)
      have hlen : (es.map (fun v : Nat => (v : Int))).length = es.length := by simp
      rw [hlen] at this
      rw [this]
      have hcons : ((e0 : Int) :: es.map (fun v : Nat => (v : Int))) =
          (e0 :: es).map (fun v : Nat => (v : Int)) := rfl
      rw [hcons, castGetD]
  · constructor
    · rintro ⟨l, hok⟩
      rw [hred] at hok
      exact parseTableLoop_isOk fp ps _ _ _ _ hok
    · intro hgood
      refine ⟨tableSpecList fp ps (e0 : Int) (es.map (fun v : Nat => (v : Int))), ?_⟩
      rw [hred]
      simpa using parseTableLoop_ok fp ps _ _ [] hgood

/-- Witness for the parse table theorem: a two-entry basic table whose
lengths are all valid parses successfully. -/
theorem parse_table_spec_witness :
    ∃ l, _parse_table ⟨fun _ => ItemTagVal, fun _ => 6⟩ true
      (((0 :: [10]).map (packLE TableType.bot.bytes_per_item)).flatten)
      TableType.bot 0 = Except.ok l :=
  (parse_table_spec ⟨fun _ => ItemTagVal, fun _ => 6⟩ TableType.bot 0 0 [10]
    (by decide)).2.mpr
    ⟨⟨by norm_num, by norm_num⟩, rfl, by norm_num, by norm_num⟩

/-- Bind of a success in the Except monad applies the continuation. -/
theorem bind_ok_eq {ε α β : Type} (a : α) (f : α → Except ε β) :
    (Except.ok a : Except ε α) >>= f = f a := rfl

/-- C4: an extended offset table together with a non-empty basic offset table
item is a fatal format error; with neither table present, frame positions are
recovered by the linear scan. -/
theorem parse_pixel_data_exclusive (m : PixelDataModel) :
    (m.eot.isSome = true → m.bot_item_tag = ItemTagVal →
      m.bot_item_length ≠ 0 → m.bot_item_length % 4 = 0 →
      _parse_pixel_data m = Except.error (.fileError "Both BOT and EOT present")) ∧
    (m.eot = none → m.bot_item_tag = ItemTagVal → m.bot_item_length = 0 →
      ∀ l, _read_positions_from_pixeldata m.pixels_start m.scan_items [] =
          Except.ok l →
        m.frame_count = l.length →
        _parse_pixel_data m = Except.ok l) := by
  constructor
  · intro heot htag hne hmod
    have hbot : _read_bot m.bot_item_tag m.bot_item_length m.bot_bytes =
        Except.ok (some m.bot_bytes) := by
      unfold _read_bot
      rw [if_neg (by simp [htag]), if_neg hne, if_neg (by simp [hmod])]
    simp only [_parse_pixel_data, hbot, bind_ok_eq]
    rw [if_pos heot]
    rfl
  · intro heot htag hlen0 l hscan hcount
    have hbot : _read_bot m.bot_item_tag m.bot_item_length m.bot_bytes =
        Except.ok none := by
      unfold _read_bot
      rw [if_neg (by simp [htag]), if_pos hlen0]
    simp only [_parse_pixel_data, hbot, bind_ok_eq, heot, hscan]
    rw [if_neg (by simp [hcount])]
    rfl

/-- Witness for the exclusivity theorem: a stream carrying both an extended
offset table and a non-empty basic offset table fails. -/
theorem parse_pixel_data_exclusive_witness :
    _parse_pixel_data
      ⟨some [1, 0, 0, 0, 0, 0, 0, 0], ItemTagVal, 4, [10, 0, 0, 0], 0, [],
        ⟨fun _ => ItemTagVal, fun _ => 6⟩, true, 1⟩ =
      Except.error (.fileError "Both BOT and EOT present") :=
  (parse_pixel_data_exclusive _).1 rfl rfl (by decide) (by decide)

/-! ### Full tile index theorems -/

theorem findFirstIdx_get {α : Type} [DecidableEq α] :
    ∀ (l : List α), l.Nodup → ∀ (i : Fin l.length),
      findFirstIdx l (l.get i) = some i.val := by
  intro l
  induction l with
  | nil => intro _ i; exact absurd i.isLt (by simp)
  | cons a t ih =>
    intro hnd i
    obtain ⟨hna, hndt⟩ := List.nodup_cons.mp hnd
    match i with
    | ⟨0, _⟩ => simp [findFirstIdx]
    | ⟨j + 1, hj⟩ =>
      have hjt : j < t.length := by simpa using hj
      have hmem : t.get ⟨j, hjt⟩ ∈ t := t.get_mem j hjt
      have hne : a ≠ t.get ⟨j, hjt⟩ := fun he => hna (he ▸ hmem)
      show findFirstIdx (a :: t) (t.get ⟨j, hjt⟩) = some (j + 1)
      simp only [findFirstIdx, if_neg hne]
      rw [ih hndt ⟨j, hjt⟩]
      rfl

theorem findFirstIdx_eq_none {α : Type} [DecidableEq α] :
    ∀ (l : List α) (a : α), a ∉ l → findFirstIdx l a = none := by
  intro l
  induction l with
  | nil => intro a _; rfl
  | cons b t ih =>
    intro a ha
    have hne : b ≠ a := fun he => ha (he ▸ List.mem_cons_self b t)
    simp only [findFirstIdx, if_neg hne]
    rw [ih a (fun hm => ha (List.mem_cons_of_mem b hm))]
    rfl

/-- Reconstruction of a number from its mixed-radix digits. -/
theorem mixed_radix_decode (W H P n : ℕ) :
    n % W + W * (n / W % H) + W * H * (n / (W * H) % P)
      + W * H * P * (n / (W * H * P)) = n := by
  have h1 : n % W + W * (n / W) = n := Nat.mod_add_div n W
  have h2 : n / W % H + H * (n / W / H) = n / W := Nat.mod_add_div _ H
  have h3 : n / W / H = n / (W * H) := Nat.div_div_eq_div_mul n W H
  have h4 : n / (W * H) % P + P * (n / (W * H) / P) = n / (W * H) :=
    Nat.mod_add_div _ P
  have h5 : n / (W * H) / P = n / (W * H * P) := Nat.div_div_eq_div_mul _ _ _
  calc n % W + W * (n / W % H) + W * H * (n / (W * H) % P)
        + W * H * P * (n / (W * H * P))
      = n % W + W * (n / W % H + H * (n / (W * H) % P + P * (n / (W * H * P)))) := by
        ring
    _ = n := by
        rw [← h5, ← h3, Nat.mod_add_div (n / W / H) P, Nat.mod_add_div (n / W) H,
          Nat.mod_add_div n W]

/-- The mixed-radix digits of an encoded tuple are unique. -/
theorem mixed_radix_digits (W H P x y zi pi : ℕ) (hx : x < W) (hy : y < H)
    (hz : zi < P) :
    (x + W * y + W * H * zi + W * H * P * pi) % W = x ∧
    (x + W * y + W * H * zi + W * H * P * pi) / W % H = y ∧
    (x + W * y + W * H * zi + W * H * P * pi) / (W * H) % P = zi ∧
    (x + W * y + W * H * zi + W * H * P * pi) / (W * H * P) = pi := by
  have hW0 : 0 < W := lt_of_le_of_lt (Nat.zero_le x) hx
  have hH0 : 0 < H := lt_of_le_of_lt (Nat.zero_le y) hy
  have hP0 : 0 < P := lt_of_le_of_lt (Nat.zero_le zi) hz
  have hform : x + W * y + W * H * zi + W * H * P * pi
      = x + W * (y + H * (zi + P * pi)) := by ring
  have hmod : (x + W * y + W * H * zi + W * H * P * pi) % W = x := by
    rw [hform, Nat.add_mul_mod_self_left, Nat.mod_eq_of_lt hx]
  have hdivW : (x + W * y + W * H * zi + W * H * P * pi) / W
      = y + H * (zi + P * pi) := by
    rw [hform, Nat.add_mul_div_left _ _ hW0, Nat.div_eq_of_lt hx, Nat.zero_add]
  have hmodH : (y + H * (zi + P * pi)) % H = y := by
    rw [Nat.add_mul_mod_self_left, Nat.mod_eq_of_lt hy]
  have hdivH : (y + H * (zi + P * pi)) / H = zi + P * pi := by
    rw [Nat.add_mul_div_left _ _ hH0, Nat.div_eq_of_lt hy, Nat.zero_add]
  have hmodP : (zi + P * pi) % P = zi := by
    rw [Nat.add_mul_mod_self_left, Nat.mod_eq_of_lt hz]
  have hdivP : (zi + P * pi) / P = pi := by
    rw [Nat.add_mul_div_left _ _ hP0, Nat.div_eq_of_lt hz, Nat.zero_add]
  refine ⟨hmod, ?_, ?_, ?_⟩
  · rw [hdivW, hmodH]
  · rw [← Nat.div_div_eq_div_mul, hdivW, hdivH, hmodP]
  · rw [← Nat.div_div_eq_div_mul, ← Nat.div_div_eq_div_mul, hdivW, hdivH, hdivP]

theorem findFirstIdx_isSome {α : Type} [DecidableEq α] :
    ∀ (l : List α) (a : α), a ∈ l → ∃ i, findFirstIdx l a = some i := by
  intro l
  induction l with
  | nil => intro a ha; cases ha
  | cons b t ih =>
    intro a ha
    by_cases hb : b = a
    · exact ⟨0, by simp [findFirstIdx, hb]⟩
    · obtain ⟨i, hi⟩ := ih a (by
        rcases List.mem_cons.mp ha with h | h
        · exact absurd h.symm hb
        · exact h)
      exact ⟨i + 1, by simp [findFirstIdx, hb, hi]⟩

/-- C1: for a full-tiled instance of tiled size W x H with P declared focal
planes and O declared optical paths, get_frame_index at tile (x, y), the
focal plane at list index z_idx and the optical path at list index path_idx
returns x + W*y + z_idx*W*H + path_idx*P*W*H; over all valid inputs this is a
bijection onto the interval from 0 to W*H*P*O; a z or path value not in the
declared lists raises a not-found error. -/
theorem full_tile_index_arithmetic (idx : FullTileIndex) (W H : ℕ)
    (hW : idx.tiled_size.width = (W : Int))
    (hH : idx.tiled_size.height = (H : Int))
    (hzn : idx.focal_planes.Nodup) (hon : idx.optical_paths.Nodup) :
    (∀ (x y : ℕ) (zi : Fin idx.focal_planes.length)
        (pi : Fin idx.optical_paths.length), x < W → y < H →
      idx.get_frame_index ⟨(x : Int), (y : Int)⟩ (idx.focal_planes.get zi)
          (idx.optical_paths.get pi) =
        Except.ok (((x + W * y + zi.val * (W * H)
          + pi.val * (idx.focal_planes.length * (W * H)) : ℕ) : Int))) ∧
    (∀ n : ℕ, n < W * H * idx.focal_planes.length * idx.optical_paths.length →
      ∃! q : Fin W × Fin H × Fin idx.focal_planes.length ×
          Fin idx.optical_paths.length,
        idx.get_frame_index ⟨((q.1 : ℕ) : Int), ((q.2.1 : ℕ) : Int)⟩
            (idx.focal_planes.get q.2.2.1) (idx.optical_paths.get q.2.2.2) =
          Except.ok ((n : ℕ) : Int)) ∧
    (∀ q : Fin W × Fin H × Fin idx.focal_planes.length ×
        Fin idx.optical_paths.length,
      ∃ m : ℕ,
        m < W * H * idx.focal_planes.length * idx.optical_paths.length ∧
        idx.get_frame_index ⟨((q.1 : ℕ) : Int), ((q.2.1 : ℕ) : Int)⟩
            (idx.focal_planes.get q.2.2.1) (idx.optical_paths.get q.2.2.2) =
          Except.ok ((m : ℕ) : Int)) ∧
    (∀ (tile : Point) (z : ℚ) (path : String), z ∉ idx.focal_planes →
      idx.get_frame_index tile z path =
        Except.error (.notFound "Z in instance")) ∧
    (∀ (tile : Point) (z : ℚ) (path : String), z ∈ idx.focal_planes →
      path ∉ idx.optical_paths →
      idx.get_frame_index tile z path =
        Except.error (.notFound "Optical path")) := by
  have harea : idx.tiled_size.area = ((W : Int) * (H : Int)) := by
    simp [Size.area, hW, hH]
  have hformula : ∀ (x y : ℕ) (zi : Fin idx.focal_planes.length)
      (pi : Fin idx.optical_paths.length),
      idx.get_frame_index ⟨(x : Int), (y : Int)⟩ (idx.focal_planes.get zi)
          (idx.optical_paths.get pi) =
        Except.ok (((x + W * y + zi.val * (W * H)
          + pi.val * (idx.focal_planes.length * (W * H)) : ℕ) : Int)) := by
    intro x y zi pi
    have hz : idx._get_focal_plane_index (idx.focal_planes.get zi) =
        Except.ok zi.val := by
      unfold FullTileIndex._get_focal_plane_index
      rw [findFirstIdx_get idx.focal_planes hzn zi]
    have hp : idx._get_optical_path_index (idx.optical_paths.get pi) =
        Except.ok pi.val := by
      unfold FullTileIndex._get_optical_path_index
      rw [findFirstIdx_get idx.optical_paths hon pi]
    simp only [FullTileIndex.get_frame_index, hz, hp, bind_ok_eq]
    congr 1
    rw [harea, hW]
    push_cast
    ring
  have hbound : ∀ (x y : ℕ) (zi : Fin idx.focal_planes.length)
      (pi : Fin idx.optical_paths.length), x < W → y < H →
      x + W * y + zi.val * (W * H)
          + pi.val * (idx.focal_planes.length * (W * H))
        < W * H * idx.focal_planes.length * idx.optical_paths.length := by
    intro x y zi pi hx hy
    have hz : zi.val < idx.focal_planes.length := zi.isLt
    have hp : pi.val < idx.optical_paths.length := pi.isLt
    have s1 : x + W * y + 1 ≤ W * H := by
      calc x + W * y + 1 ≤ W + W * y := by linarith
        _ = W * (y + 1) := by ring
        _ ≤ W * H := Nat.mul_le_mul_left W hy
    have s2 : x + W * y + zi.val * (W * H) + 1
        ≤ W * H * idx.focal_planes.length := by
      calc x + W * y + zi.val * (W * H) + 1 ≤ W * H + W * H * zi.val := by
            have he : zi.val * (W * H) = W * H * zi.val := by ring
            linarith [he.le, he.ge]
        _ = W * H * (zi.val + 1) := by ring
        _ ≤ W * H * idx.focal_planes.length := Nat.mul_le_mul_left (W * H) hz
    have s3 : x + W * y + zi.val * (W * H)
          + pi.val * (idx.focal_planes.length * (W * H)) + 1
        ≤ W * H * idx.focal_planes.length * idx.optical_paths.length := by
      calc x + W * y + zi.val * (W * H)
            + pi.val * (idx.focal_planes.length * (W * H)) + 1
          ≤ W * H * idx.focal_planes.length
              + W * H * idx.focal_planes.length * pi.val := by
            have he : pi.val * (idx.focal_planes.length * (W * H))
                = W * H * idx.focal_planes.length * pi.val := by ring
            linarith [he.le, he.ge]
        _ = W * H * idx.focal_planes.length * (pi.val + 1) := by ring
        _ ≤ W * H * idx.focal_planes.length * idx.optical_paths.length :=
            Nat.mul_le_mul_left (W * H * idx.focal_planes.length) hp
    exact s3
  refine ⟨fun x y zi pi _ _ => hformula x y zi pi, ?_, ?_, ?_, ?_⟩
  · intro n hn
    have hprod : 0 < W * H * idx.focal_planes.length * idx.optical_paths.length :=
      lt_of_le_of_lt (Nat.zero_le n) hn
    set P := idx.focal_planes.length
    set O := idx.optical_paths.length
    have hW0 : 0 < W := by
      rcases Nat.eq_zero_or_pos W with h | h
      · rw [h] at hprod; simp at hprod
      · exact h
    have hH0 : 0 < H := by
      rcases Nat.eq_zero_or_pos H with h | h
      · rw [h] at hprod; simp at hprod
      · exact h
    have hP0 : 0 < P := by
      rcases Nat.eq_zero_or_pos P with h | h
      · rw [h] at hprod; simp at hprod
      · exact h
    have hO0 : 0 < O := by
      rcases Nat.eq_zero_or_pos O with h | h
      · rw [h] at hprod; simp at hprod
      · exact h
    have hxb : n % W < W := Nat.mod_lt n hW0
    have hyb : n / W % H < H := Nat.mod_lt _ hH0
    have hzb : n / (W * H) % P < P := Nat.mod_lt _ hP0
    have hpb : n / (W * H * P) < O := by
      rw [Nat.div_lt_iff_lt_mul (by positivity)]
      calc n < W * H * P * O := hn
        _ = O * (W * H * P) := by ring
    refine ⟨⟨⟨n % W, hxb⟩, ⟨n / W % H, hyb⟩, ⟨n / (W * H) % P, hzb⟩,
      ⟨n / (W * H * P), hpb⟩⟩, ?_, ?_⟩
    · simp only []
      rw [hformula]
      congr 1
      have : n % W + W * (n / W % H) + (n / (W * H) % P) * (W * H)
          + (n / (W * H * P)) * (P * (W * H))
          = n % W + W * (n / W % H) + W * H * (n / (W * H) % P)
            + W * H * P * (n / (W * H * P)) := by ring
      rw [this, mixed_radix_decode]
    · rintro ⟨⟨x', hx'⟩, ⟨y', hy'⟩, ⟨zi', hz'⟩, ⟨pi', hp'⟩⟩ hq
      simp only [] at hq
      rw [hformula] at hq
      simp only [Except.ok.injEq, Nat.cast_inj] at hq
      have hq' : x' + W * y' + W * H * zi' + W * H * P * pi' = n := by
        rw [← hq]; ring
      obtain ⟨d1, d2, d3, d4⟩ := mixed_radix_digits W H P x' y' zi' pi' hx' hy' hz'
      rw [hq'] at d1 d2 d3 d4
      simp only [Prod.mk.injEq, Fin.mk.injEq]
      exact ⟨d1.symm, d2.symm, d3.symm, d4.symm⟩
  · intro q
    refine ⟨q.1.val + W * q.2.1.val + q.2.2.1.val * (W * H)
      + q.2.2.2.val * (idx.focal_planes.length * (W * H)), ?_, ?_⟩
    · exact hbound q.1.val q.2.1.val q.2.2.1 q.2.2.2 q.1.isLt q.2.1.isLt
    · exact hformula q.1.val q.2.1.val q.2.2.1 q.2.2.2
  · intro tile z path hz
    have h1 : idx._get_focal_plane_index z =
        Except.error (.notFound "Z in instance") := by
      unfold FullTileIndex._get_focal_plane_index
      rw [findFirstIdx_eq_none idx.focal_planes z hz]
    simp only [FullTileIndex.get_frame_index, h1]
    rfl
  · intro tile z path hz hp
    obtain ⟨i, hi⟩ := findFirstIdx_isSome idx.focal_planes z hz
    have h1 : idx._get_focal_plane_index z = Except.ok i := by
      unfold FullTileIndex._get_focal_plane_index
      rw [hi]
    have h2 : idx._get_optical_path_index path =
        Except.error (.notFound "Optical path") := by
      unfold FullTileIndex._get_optical_path_index
      rw [findFirstIdx_eq_none idx.optical_paths path hp]
    simp only [FullTileIndex.get_frame_index, h1, h2, bind_ok_eq]
    rfl

/-- Witness for the full index theorem: tile (1, 1) of the 2 x 2 example is
frame 3. -/
theorem full_tile_index_arithmetic_witness :
    exFullIndex.get_frame_index ⟨1, 1⟩ 0 "0" = Except.ok 3 := by
  have h := (full_tile_index_arithmetic exFullIndex 2 2 (by decide) (by decide)
    (by decide) (by decide)).1 1 1 ⟨0, by decide⟩ ⟨0, by decide⟩
    (by decide) (by decide)
  simpa using h

/-! ### Sparse tile index theorems -/

theorem planesLookup_replace_ne (ps : Planes) (k k2 : ℚ × String)
    (p : SparseTilePlane) (h : k2 ≠ k) :
    planesLookup (planesReplace ps k p) k2 = planesLookup ps k2 := by
  induction ps with
  | nil => rfl
  | cons e rest ih =>
    obtain ⟨ek, ep⟩ := e
    by_cases he : ek = k
    · simp only [planesReplace, if_pos he, planesLookup]
      have hne : ¬ ek = k2 := by rw [he]; exact fun hh => h hh.symm
      rw [if_neg hne, if_neg hne]
    · simp only [planesReplace, if_neg he, planesLookup]
      by_cases h2 : ek = k2
      · rw [if_pos h2, if_pos h2]
      · rw [if_neg h2, if_neg h2]
        exact ih

theorem planesLookup_replace_self (ps : Planes) (k : ℚ × String)
    (p : SparseTilePlane) (h : planesLookup ps k ≠ none) :
    planesLookup (planesReplace ps k p) k = some p := by
  induction ps with
  | nil => exact absurd rfl h
  | cons e rest ih =>
    obtain ⟨ek, ep⟩ := e
    by_cases he : ek = k
    · simp only [planesReplace, if_pos he, planesLookup]
    · simp only [planesReplace, if_neg he, planesLookup] at h ⊢
      exact ih h

theorem planesLookup_append_self (ps : Planes) (k : ℚ × String)
    (p : SparseTilePlane) (h : planesLookup ps k = none) :
    planesLookup (ps ++ [(k, p)]) k = some p := by
  induction ps with
  | nil => simp [planesLookup]
  | cons e rest ih =>
    obtain ⟨ek, ep⟩ := e
    simp only [planesLookup] at h
    by_cases he : ek = k
    · rw [if_pos he] at h; cases h
    · rw [if_neg he] at h
      simp only [List.cons_append, planesLookup, if_neg he]
      exact ih h

theorem planesLookup_append_ne (ps : Planes) (k k2 : ℚ × String)
    (p : SparseTilePlane) (h : k2 ≠ k) :
    planesLookup (ps ++ [(k, p)]) k2 = planesLookup ps k2 := by
  induction ps with
  | nil =>
    simp only [List.nil_append, planesLookup]
    rw [if_neg (fun hh => h hh.symm)]
  | cons e rest ih =>
    obtain ⟨ek, ep⟩ := e
    simp only [List.cons_append, planesLookup]
    by_cases he : ek = k2
    · rw [if_pos he, if_pos he]
    · rw [if_neg he, if_neg he]
      exact ih

theorem lookup_addFrame_ne (ps : Planes) (k k2 : ℚ × String) (t : Point)
    (v : Int) (h : k2 ≠ k) :
    planesLookup (planesAddFrame ps k t v) k2 = planesLookup ps k2 := by
  unfold planesAddFrame
  cases hlk : planesLookup ps k with
  | none => exact planesLookup_append_ne ps k k2 _ h
  | some p => exact planesLookup_replace_ne ps k k2 _ h

theorem lookup_addFrame_self (ps : Planes) (k : ℚ × String) (t : Point)
    (v : Int) :
    planesLookup (planesAddFrame ps k t v) k =
      some (((planesLookup ps k).getD SparseTilePlane.new).set t v) := by
  unfold planesAddFrame
  cases hlk : planesLookup ps k with
  | none => exact planesLookup_append_self ps k _ hlk
  | some p => exact planesLookup_replace_self ps k _ (by rw [hlk]; exact fun hh => by cases hh)

/-- Folding the remaining writes over a planes map: if no write hits
(key, tile), the plane at the key keeps the sentinel at the tile, and it
exists as soon as the key was or is written. -/
theorem fold_writes_sentinel (k : ℚ × String) (tile : Point) :
    ∀ (ws : List ((ℚ × String) × Point × Int)) (ps : Planes),
      (∀ w ∈ ws, ¬ (w.1 = k ∧ w.2.1 = tile)) →
      (∀ p, planesLookup ps k = some p → p.plane tile = -1) →
      ((planesLookup ps k).isSome = true ∨ ∃ w ∈ ws, w.1 = k) →
      ∃ p, planesLookup
          (ws.foldl (fun ps w => planesAddFrame ps w.1 w.2.1 w.2.2) ps) k = some p ∧
        p.plane tile = -1 := by
  intro ws
  induction ws with
  | nil =>
    intro ps hnever hinv hsome
    rcases hsome with hsome | ⟨w, hw, _⟩
    · cases hlk : planesLookup ps k with
      | none => rw [hlk] at hsome; cases hsome
      | some p => exact ⟨p, hlk, hinv p hlk⟩
    · cases hw
  | cons w rest ih =>
    intro ps hnever hinv hsome
    simp only [List.foldl_cons]
    by_cases hk : w.1 = k
    · have hwt : w.2.1 ≠ tile := by
        intro hh
        exact hnever w (List.mem_cons_self w rest) ⟨hk, hh⟩
      apply ih
      · exact fun x hx => hnever x (List.mem_cons_of_mem w hx)
      · intro p hp
        rw [hk] at hp
        rw [lookup_addFrame_self ps k w.2.1 w.2.2] at hp
        have hpv : p = ((planesLookup ps k).getD SparseTilePlane.new).set w.2.1 w.2.2 := by
          cases hp; rfl
        rw [hpv]
        show (if tile = w.2.1 then w.2.2
          else ((planesLookup ps k).getD SparseTilePlane.new).plane tile) = -1
        rw [if_neg (fun hh => hwt hh.symm)]
        cases hlk : planesLookup ps k with
        | none => rfl
        | some q =>
          have := hinv q hlk
          simpa [Option.getD] using this
      · left
        rw [hk, lookup_addFrame_self ps k w.2.1 w.2.2]
        rfl
    · apply ih
      · exact fun x hx => hnever x (List.mem_cons_of_mem w hx)
      · intro p hp
        rw [lookup_addFrame_ne ps w.1 k w.2.1 w.2.2 (fun hh => hk hh.symm)] at hp
        exact hinv p hp
      · rcases hsome with hsome | ⟨x, hx, hxk⟩
        · left
          rw [lookup_addFrame_ne ps w.1 k w.2.1 w.2.2 (fun hh => hk hh.symm)]
          exact hsome
        · rcases List.mem_cons.mp hx with hh | hh
          · rw [hh] at hxk; exact absurd hxk hk
          · exact Or.inr ⟨x, hh, hxk⟩

/-- A sparse-tiled tile data engine built from datasets as WsiInstance does. -/
def mkSparseImageData (first : WsiDataset) (datasets : List WsiDataset)
    (opaths : List String) (files : List WsiDicomFileM) (photo : String)
    (spp : Nat) : WsiDicomImageData :=
  ⟨.sparse (SparseTileIndex.ofDatasets first datasets opaths), files, photo, spp⟩

/-- C2: for a sparse-tiled instance, an in-bounds tile whose (z, path) plane
exists but was never assigned a frame by any per-frame entry gets the
sentinel -1 from get_frame_index rather than an error, and the engine then
returns the cached blank tile or cached encoded blank tile instead of reading
a frame. -/
theorem sparse_sentinel_blank (first : WsiDataset) (datasets : List WsiDataset)
    (opaths : List String) (files : List WsiDicomFileM) (photo : String)
    (spp : Nat) (tile : Point) (z : ℚ) (path : String)
    (hexists : ∃ w ∈ datasets.flatMap (datasetWrites first.tile_size),
      w.1 = (z, path))
    (hnever : ∀ w ∈ datasets.flatMap (datasetWrites first.tile_size),
      ¬ (w.1 = (z, path) ∧ w.2.1 = tile))
    (hvalid : (mkSparseImageData first datasets opaths files photo spp).valid_tiles
      ⟨tile, ⟨0, 0⟩⟩ z path = true) :
    (SparseTileIndex.ofDatasets first datasets opaths).get_frame_index tile z path
      = Except.ok (-1) ∧
    (mkSparseImageData first datasets opaths files photo spp)._get_encoded_tile
        tile z path =
      Except.ok (mkSparseImageData first datasets opaths files photo spp).blank_encoded_tile ∧
    (mkSparseImageData first datasets opaths files photo spp)._get_decoded_tile
        tile z path =
      Except.ok (mkSparseImageData first datasets opaths files photo spp).blank_tile := by
  obtain ⟨p, hlk, hp⟩ := fold_writes_sentinel (z, path) tile
    (datasets.flatMap (datasetWrites first.tile_size)) []
    hnever (fun p hp => by cases hp) (Or.inr hexists)
  have hidx : (SparseTileIndex.ofDatasets first datasets opaths).get_frame_index
      tile z path = Except.ok (-1) := by
    unfold SparseTileIndex.get_frame_index SparseTileIndex.ofDatasets
      _read_planes_from_datasets
    simp only []
    rw [hlk]
    show Except.ok (p.get tile) = Except.ok (-1)
    rw [show p.get tile = p.plane tile from rfl, hp]
  have hfi : (mkSparseImageData first datasets opaths files photo spp)._get_frame_index
      tile z path = Except.ok (-1) := by
    unfold WsiDicomImageData._get_frame_index
    rw [if_neg (by simp [hvalid])]
    exact hidx
  refine ⟨hidx, ?_, ?_⟩
  · simp only [WsiDicomImageData._get_encoded_tile, hfi, bind_ok_eq]
    rfl
  · simp only [WsiDicomImageData._get_decoded_tile, hfi, bind_ok_eq]
    rfl

/-- A concrete sparse dataset: one frame at tile (0, 0) of a 2 x 2 tiling. -/
def exSparseDataset : WsiDataset :=
  { image_size := ⟨2048, 2048⟩
    tile_size := ⟨1024, 1024⟩
    frame_offset := 0
    frame_count := 1
    optical_path_sequence := ["0"]
    spacing_between_slices := 0
    number_of_focal_planes := 1
    frame_sequence := [⟨1, 1, 0, none⟩] }

theorem round3_zero : round3 0 = 0 := by
  norm_num [round3, pyRoundInt, Rat.floor]

theorem exSparse_writes :
    [exSparseDataset].flatMap (datasetWrites exSparseDataset.tile_size)
      = [((0, "0"), (⟨0, 0⟩ : Point), (0 : Int))] := by
  simp [datasetWrites, _read_frame_coordinates,
    WsiDataset.read_optical_path_identifier, exSparseDataset, round3_zero,
    Point.floordiv, List.enum]

theorem exSparse_focal_planes :
    (SparseTileIndex.ofDatasets exSparseDataset [exSparseDataset] ["0"]).focal_planes
      = [0] := by
  have hplanes :
      (SparseTileIndex.ofDatasets exSparseDataset [exSparseDataset] ["0"]).planes
        = [((0, "0"), SparseTilePlane.new.set ⟨0, 0⟩ 0)] := by
    show _read_planes_from_datasets exSparseDataset.tile_size [exSparseDataset] = _
    unfold _read_planes_from_datasets
    rw [exSparse_writes]
    rfl
  unfold SparseTileIndex.focal_planes
  rw [hplanes]
  rfl

/-- Witness for the sparse sentinel theorem: tile (1, 0) of the example was
never written, so the index returns -1. -/
theorem sparse_sentinel_blank_witness :
    (SparseTileIndex.ofDatasets exSparseDataset [exSparseDataset] ["0"]).get_frame_index
      ⟨1, 0⟩ 0 "0" = Except.ok (-1) :=
  (sparse_sentinel_blank exSparseDataset [exSparseDataset] ["0"] []
    "MONOCHROME2" 1 ⟨1, 0⟩ 0 "0"
    ⟨((0, "0"), ⟨0, 0⟩, 0), by rw [exSparse_writes]; exact List.mem_singleton.mpr rfl, rfl⟩
    (by
      intro w hw
      rw [exSparse_writes] at hw
      rw [List.mem_singleton.mp hw]
      intro hc
      cases hc.2)
    (by
      unfold mkSparseImageData WsiDicomImageData.valid_tiles
        WsiDicomImageData.focal_planes WsiDicomImageData.optical_paths
        WsiDicomImageData.plane_region WsiDicomImageData.tiled_size
      simp only [TileIndexM.focal_planes, TileIndexM.optical_paths,
        TileIndexM.tiled_size, decide_eq_true_eq]
      rw [exSparse_focal_planes]
      refine ⟨by decide, by simp, by decide⟩)).1

/-! ### Tile cropping (get_tile and get_encoded_tile) -/

/-- A 10 x 10 image of 8 x 8 tiles (2 x 2 tiling with a 2-pixel edge), so
that the last row and column tiles need cropping. -/
def ex2Frame : Frame := encodeImage ⟨⟨8, 8⟩, fun p => p.x + 10 * p.y⟩

def ex2ImageData : WsiDicomImageData :=
  { tiles := .full
      { image_size := ⟨10, 10⟩
        tile_size := ⟨8, 8⟩
        optical_paths := ["0"]
        focal_planes := [0] }
    files := [⟨0, 4, [ex2Frame, ex2Frame, ex2Frame, ex2Frame]⟩]
    photometric_interpretation := "MONOCHROME2"
    samples_per_pixel := 1 }

/-- C6, divergence at the edge tile (1, 1): the intersection of the tile with
the image region is 2 x 2 and get_tile returns the clipped 2 x 2 image, but
get_encoded_tile discards the result of the crop and returns bytes that
decode to the full 8 x 8 tile. -/
theorem get_encoded_tile_crop_discarded :
    (ex2ImageData.image_region.inside_crop ⟨1, 1⟩ ex2ImageData.tile_size).size
      = ⟨2, 2⟩ ∧
    (ex2ImageData.get_tile ⟨1, 1⟩ 0 "0" CropArg.toImage).map (fun i => i.size)
      = Except.ok ⟨2, 2⟩ ∧
    (ex2ImageData.get_encoded_tile ⟨1, 1⟩ 0 "0" CropArg.toImage).map
        (fun f => (decodeFrame f).size)
      = Except.ok ⟨8, 8⟩ := by
  refine ⟨rfl, rfl, rfl⟩

/-! ### Focal plane reading theorems -/

/-- Folding set insertion over a range keeps the accumulator duplicate-free
and collects exactly the images of the range. -/
theorem insertFold (f : ℕ → ℚ) :
    ∀ (n : ℕ) (acc : List ℚ), acc.Nodup →
      ((List.range n).foldl (fun a i => if f i ∈ a then a else a ++ [f i]) acc).Nodup ∧
      (∀ v, v ∈ (List.range n).foldl
          (fun a i => if f i ∈ a then a else a ++ [f i]) acc ↔
        v ∈ acc ∨ ∃ i, i < n ∧ v = f i) := by
  intro n
  induction n with
  | zero =>
    intro acc hnd
    refine ⟨hnd, fun v => ?_⟩
    simp
  | succ n ih =>
    intro acc hnd
    obtain ⟨ihnd, ihmem⟩ := ih acc hnd
    rw [List.range_succ, List.foldl_append]
    set r := (List.range n).foldl (fun a i => if f i ∈ a then a else a ++ [f i]) acc with hr
    simp only [List.foldl_cons, List.foldl_nil]
    by_cases hin : f n ∈ r
    · rw [if_pos hin]
      refine ⟨ihnd, fun v => ?_⟩
      rw [ihmem v]
      constructor
      · rintro (h | ⟨i, hi, hv⟩)
        · exact Or.inl h
        · exact Or.inr ⟨i, Nat.lt_succ_of_lt hi, hv⟩
      · rintro (h | ⟨i, hi, hv⟩)
        · exact Or.inl h
        · rcases Nat.lt_succ_iff_lt_or_eq.mp hi with hi | hi
          · exact Or.inr ⟨i, hi, hv⟩
          · rw [hi] at hv
            rw [hv]
            exact (ihmem (f n)).mp hin
    · rw [if_neg hin]
      constructor
      · rw [List.nodup_append]
        exact ⟨ihnd, List.nodup_singleton _, by
          intro a ha hb
          rw [List.mem_singleton] at hb
          rw [hb] at ha
          exact hin ha⟩
      · intro v
        rw [List.mem_append, List.mem_singleton, ihmem v]
        constructor
        · rintro ((h | ⟨i, hi, hv⟩) | h)
          · exact Or.inl h
          · exact Or.inr ⟨i, Nat.lt_succ_of_lt hi, hv⟩
          · exact Or.inr ⟨n, Nat.lt_succ_self n, h⟩
        · rintro (h | ⟨i, hi, hv⟩)
          · exact Or.inl (Or.inl h)
          · rcases Nat.lt_succ_iff_lt_or_eq.mp hi with hi | hi
            · exact Or.inl (Or.inr ⟨i, hi, hv⟩)
            · rw [hi] at hv
              exact Or.inr hv

/-- Invariant of the dataset fold of the focal plane reader. -/
theorem foldlM_focal :
    ∀ (ds : List WsiDataset) (acc : List ℚ), acc.Nodup →
      ((∃ l, List.foldlM addFocalPlanes acc ds = Except.ok l) ↔
        ∀ d ∈ ds, ¬ (d.spacing_between_slices = 0 ∧
          d.number_of_focal_planes ≠ 1)) ∧
      (∀ l, List.foldlM addFocalPlanes acc ds = Except.ok l →
        l.Nodup ∧ ∀ v, (v ∈ l ↔ v ∈ acc ∨ ∃ d ∈ ds,
          ∃ i, i < d.number_of_focal_planes ∧
            v = round3 ((i : ℚ) * d.spacing_between_slices * 1000))) := by
  intro ds
  induction ds with
  | nil =>
    intro acc hnd
    refine ⟨⟨fun _ _ h => absurd h (by simp), fun _ => ⟨acc, rfl⟩⟩, ?_⟩
    intro l hl
    have : l = acc := by
      simp only [List.foldlM] at hl
      cases hl
      rfl
    rw [this]
    exact ⟨hnd, fun v => by simp⟩
  | cons d rest ih =>
    intro acc hnd
    by_cases hbad : d.spacing_between_slices = 0 ∧ d.number_of_focal_planes ≠ 1
    · have herr : List.foldlM addFocalPlanes acc (d :: rest) =
          Except.error WsiError.valueError := by
        rw [List.foldlM_cons]
        unfold addFocalPlanes
        rw [if_pos hbad]
        rfl
      constructor
      · constructor
        · rintro ⟨l, hl⟩
          rw [herr] at hl
          cases hl
        · intro hall
          exact absurd hbad (hall d (List.mem_cons_self d rest))
      · intro l hl
        rw [herr] at hl
        cases hl
    · obtain ⟨hnd2, hmem2⟩ := insertFold
        (fun i => round3 ((i : ℚ) * d.spacing_between_slices * 1000))
        d.number_of_focal_planes acc hnd
      have hfold : List.foldlM addFocalPlanes acc (d :: rest) =
          List.foldlM addFocalPlanes
            ((List.range d.number_of_focal_planes).foldl
              (fun a (i : ℕ) =>
                if round3 ((i : ℚ) * d.spacing_between_slices * 1000) ∈ a then a
                else a ++ [round3 ((i : ℚ) * d.spacing_between_slices * 1000)])
              acc) rest := by
        rw [List.foldlM_cons]
        have hstep : addFocalPlanes acc d = Except.ok
            ((List.range d.number_of_focal_planes).foldl
              (fun a (i : ℕ) =>
                if round3 ((i : ℚ) * d.spacing_between_slices * 1000) ∈ a then a
                else a ++ [round3 ((i : ℚ) * d.spacing_between_slices * 1000)])
              acc) := by
          unfold addFocalPlanes
          rw [if_neg hbad]
        rw [hstep]
        rfl
      obtain ⟨ihex, ihchar⟩ := ih _ hnd2
      constructor
      · rw [hfold]
        rw [ihex]
        constructor
        · intro hall d2 hd2
          rcases List.mem_cons.mp hd2 with h | h
          · rw [h]; exact hbad
          · exact hall d2 h
        · intro hall d2 hd2
          exact hall d2 (List.mem_cons_of_mem d hd2)
      · intro l hl
        rw [hfold] at hl
        obtain ⟨hlnd, hlmem⟩ := ihchar l hl
        refine ⟨hlnd, fun v => ?_⟩
        rw [hlmem v, hmem2 v]
        constructor
        · rintro ((h | ⟨i, hi, hv⟩) | ⟨d2, hd2, i, hi, hv⟩)
          · exact Or.inl h
          · exact Or.inr ⟨d, List.mem_cons_self d rest, i, hi, hv⟩
          · exact Or.inr ⟨d2, List.mem_cons_of_mem d hd2, i, hi, hv⟩
        · rintro (h | ⟨d2, hd2, i, hi, hv⟩)
          · exact Or.inl (Or.inl h)
          · rcases List.mem_cons.mp hd2 with hh | hh
            · rw [hh] at hv hi
              exact Or.inl (Or.inr ⟨i, hi, hv⟩)
            · exact Or.inr ⟨d2, hh, i, hi, hv⟩

/-- C10: building the focal plane list raises an error exactly when some
dataset declares several focal planes with zero spacing between slices;
otherwise the focal planes are the deduplicated values
round(i * spacing_between_slices * 1000, 3) for i below the declared number
of focal planes, over all datasets. -/
theorem read_focal_planes_spec (datasets : List WsiDataset) :
    ((∃ l, _read_focal_planes_from_datasets datasets = Except.ok l) ↔
      ∀ d ∈ datasets, ¬ (d.spacing_between_slices = 0 ∧
        d.number_of_focal_planes ≠ 1)) ∧
    (∀ l, _read_focal_planes_from_datasets datasets = Except.ok l →
      l.Nodup ∧ ∀ v, (v ∈ l ↔ ∃ d ∈ datasets,
        ∃ i, i < d.number_of_focal_planes ∧
          v = round3 ((i : ℚ) * d.spacing_between_slices * 1000))) := by
  obtain ⟨hex, hchar⟩ := foldlM_focal datasets [] List.nodup_nil
  refine ⟨hex, fun l hl => ?_⟩
  obtain ⟨hnd, hmem⟩ := hchar l hl
  refine ⟨hnd, fun v => ?_⟩
  rw [hmem v]
  simp

/-- Witness for the focal plane theorem: a dataset with two declared planes
and nonzero spacing is accepted. -/
theorem read_focal_planes_spec_witness :
    ∃ l, _read_focal_planes_from_datasets
      [{ image_size := ⟨2048, 2048⟩
         tile_size := ⟨1024, 1024⟩
         frame_offset := 0
         frame_count := 8
         optical_path_sequence := ["0"]
         spacing_between_slices := 1
         number_of_focal_planes := 2
         frame_sequence := [] }] = Except.ok l :=
  (read_focal_planes_spec _).1.mpr (by
    intro d hd
    rw [List.mem_singleton] at hd
    rw [hd]
    intro hc
    exact absurd hc.1 (by norm_num))

end Wsidicom
